import Mathlib

set_option maxRecDepth 10000

/-!
Verification of the Nayuki++ FLAC core (bit-level I/O, CRC tracking, metadata
codecs, Rice decoding tables) against its natural-language specification.

The C++ sources are shallowly embedded: machine integers become `Nat`/`Int`
with explicit `% 2 ^ w` where overflow matters, fallible code returns
`Except Err`, and the mutable reader/writer state machines become explicit
state-passing functions.

Width conventions follow the platforms the code builds on (x86-64 Linux with
glibc, and every other mainstream ABI for the 8-bit case):
`uint_fast8_t` is exactly 8 bits (an `unsigned char`), while `uint_fast16_t`,
`uint_fast32_t`, `uint_fast64_t`, `int_fast16_t`, `int_fast32_t` and
`int_fast64_t` are 64 bits wide.  Plain `int` is 32 bits and its right shift
on negative values is arithmetic (gcc/clang semantics).
-/

/-- The error kinds of the library, following section 7 of the specification.
`std::invalid_argument` maps to `InvalidArgument`, `DataFormatException` to
`InvalidData` (with the "Residual value too large" throw kept separate as
`ResidualTooLarge`), the `std::runtime_error` thrown by `checkByteAligned`
to `NotAligned`, the `std::runtime_error` kinds thrown by serializer
state validation to `InvalidState`, and "End of data" to `EndOfStream`. -/
inductive Err where
  | EndOfStream
  | InvalidData
  | InvalidState
  | InvalidArgument
  | NotAligned
  | Unsupported
  | ResidualTooLarge
deriving DecidableEq, Repr

/-! ### Bit-string helpers

The wire format is MSB-first.  `natToBits n v` is the list of the low `n`
bits of `v`, most significant first; `natOfBits` folds a bit list back to a
number; `bitsOfBytes` expands a byte list to its bit string. -/

def natToBits : Nat → Nat → List Bool
  | 0, _ => []
  | n + 1, v => v.testBit n :: natToBits n v

def natOfBits (l : List Bool) : Nat :=
  l.foldl (fun a b => 2 * a + (if b then 1 else 0)) 0

def bitsOfBytes (bs : List Nat) : List Bool :=
  bs.flatMap (natToBits 8)

/-- The value of the `n` bits of a bit string starting at position `c`. -/
def sliceVal (bs : List Bool) (c n : Nat) : Nat :=
  natOfBits ((bs.drop c).take n)

/-! ### CRC primitives

`crc8TableEntry i` is the value the reader stores in `CRC8_TABLE[i]`
(8 rounds of the left-shift MSB-first step for polynomial 0x107, with the
final store truncated to `uint_fast8_t`, i.e. 8 bits).  `crc16TableEntry`
is `CRC16_TABLE[i]` for polynomial 0x18005 (stored in a 64-bit
`uint_fast16_t`, so no truncation on store). -/

def crc8TableEntry (i : Nat) : Nat :=
  ((List.range 8).foldl (fun t _ => (t <<< 1) ^^^ ((t >>> 7) * 0x107)) i) % 256

def crc16TableEntry (i : Nat) : Nat :=
  (List.range 8).foldl (fun t _ => (t <<< 1) ^^^ ((t >>> 15) * 0x18005)) (i <<< 8)

/-- One byte step of the writer CRC-8 from `BitOutputStream::flush`.  The
accumulator is a `uint_fast8_t`, i.e. exactly 8 bits on every mainstream ABI,
so each compound assignment truncates to 8 bits: `crc8 <<= 1` loses the
shifted-out bit before `crc8 ^= (crc8 >> 8) * 0x107` can observe it, making
that xor a no-op. -/
def writerCrc8Byte (c b : Nat) : Nat :=
  (List.range 8).foldl (fun t _ =>
    let t1 := (t <<< 1) % 256
    (t1 ^^^ ((t1 >>> 8) * 0x107)) % 256) ((c ^^^ b) % 256)

/-- One byte step of the writer CRC-16 from `BitOutputStream::flush`.  The
accumulator is a `uint_fast16_t`, which is 64 bits wide on the platforms the
code builds on, so here the shifted value keeps bit 16 and the polynomial
feedback works. -/
def writerCrc16Byte (c b : Nat) : Nat :=
  (List.range 8).foldl (fun t _ =>
    let t1 := (t <<< 1) % 2 ^ 64
    (t1 ^^^ ((t1 >>> 16) * 0x18005)) % 2 ^ 64) ((c ^^^ (b <<< 8)) % 2 ^ 64)

/-- Standalone CRC-8 as the specification defines it: polynomial 0x107,
MSB-first left shift, zero initial value, over a list of bytes.  This is the
reference ("spec side") definition the code is compared against. -/
def crc8Standalone (bs : List Nat) : Nat :=
  bs.foldl (fun c b =>
    (List.range 8).foldl (fun t _ => ((t <<< 1) ^^^ ((t >>> 7) * 0x107)) % 256)
      (c ^^^ b)) 0

/-- Standalone CRC-16 as the specification defines it: polynomial 0x18005,
MSB-first left shift, zero initial value, over a list of bytes (each byte
enters at the high end of the 16-bit register). -/
def crc16Standalone (bs : List Nat) : Nat :=
  bs.foldl (fun c b =>
    (List.range 8).foldl (fun t _ => ((t <<< 1) ^^^ ((t >>> 15) * 0x18005)) % 2 ^ 16)
      (c ^^^ (b <<< 8))) 0

/-! ### BitOutputStream (src/encode/BitOutputStream.h, src/unnamed/part_004)

`outBytes` models the bytes already handed to the underlying `std::ostream`.
`bitBuffer` is the 64-bit bit buffer (`uint_fast64_t`), of which only the low
`bitBufferLen` bits are valid. -/

structure BitOutputStream where
  outBytes : List Nat
  bitBuffer : Nat
  bitBufferLen : Nat
  byteCount : Nat
  crc8 : Nat
  crc16 : Nat
deriving DecidableEq, Repr

/-- The state of a `BitOutputStream` right after construction: empty output,
empty bit buffer, CRCs reset (the constructor calls `resetCrcs`, whose
`flush` is a no-op on the empty buffer). -/
def freshWriter : BitOutputStream :=
  { outBytes := [], bitBuffer := 0, bitBufferLen := 0, byteCount := 0,
    crc8 := 0, crc16 := 0 }

/-- The while loop of `BitOutputStream::flush`: drain whole bytes MSB-first
while at least 8 bits are buffered, updating both CRCs per byte.  The fuel
argument only bounds the number of loop iterations; since every iteration
removes 8 bits, `bitBufferLen` iterations always suffice. -/
def BitOutputStream.flushLoop : Nat → BitOutputStream → BitOutputStream
  | 0, w => w
  | fuel + 1, w =>
    if w.bitBufferLen ≥ 8 then
      let len := w.bitBufferLen - 8
      let b := (w.bitBuffer >>> len) &&& 0xFF
      BitOutputStream.flushLoop fuel
        { w with bitBufferLen := len,
                 outBytes := w.outBytes ++ [b],
                 byteCount := w.byteCount + 1,
                 crc8 := writerCrc8Byte w.crc8 b,
                 crc16 := writerCrc16Byte w.crc16 b }
    else w

/-- `BitOutputStream::flush` (the `out->flush()` call on the underlying
stream has no observable effect in this model). -/
def BitOutputStream.flush (w : BitOutputStream) : BitOutputStream :=
  BitOutputStream.flushLoop w.bitBufferLen w

/-- `BitOutputStream::writeInt`.  `n` is a `Nat` here, so only the upper
bound of the C++ `n < 0 || n > 32` check is modelled; `val & ((1L << n) - 1)`
on the 64-bit signed `val` is its value modulo `2 ^ n` (the low `n` bits of
the two's complement representation). -/
def BitOutputStream.writeInt (n : Nat) (val : Int) (w : BitOutputStream) : Except Err BitOutputStream :=
  if n > 32 then .error .InvalidArgument
  else
    let w := if w.bitBufferLen + n > 64 then w.flush else w
    .ok { w with
          bitBuffer := (((w.bitBuffer <<< n) % 2 ^ 64) ||| (val % (2 ^ n : Int)).toNat) % 2 ^ 64,
          bitBufferLen := w.bitBufferLen + n }

/-- `BitOutputStream::alignToByte`. -/
def BitOutputStream.alignToByte (w : BitOutputStream) : Except Err BitOutputStream :=
  w.writeInt ((64 - w.bitBufferLen) % 8) 0

/-- `BitOutputStream::resetCrcs`. -/
def BitOutputStream.resetCrcs (w : BitOutputStream) : BitOutputStream :=
  { w.flush with crc8 := 0, crc16 := 0 }

/-- `BitOutputStream::checkByteAligned`. -/
def BitOutputStream.checkByteAligned (w : BitOutputStream) : Except Err Unit :=
  if w.bitBufferLen % 8 ≠ 0 then .error .NotAligned else .ok ()

/-- `BitOutputStream::getCrc8`, without the C `assert` (whose condition is
modelled separately as `writerCrc8AssertCond`). -/
def BitOutputStream.getCrc8 (w : BitOutputStream) : Except Err (Nat × BitOutputStream) := do
  let _ ← w.checkByteAligned
  let w := w.flush
  .ok (w.crc8, w)

/-- `BitOutputStream::getCrc16`, without the C `assert`. -/
def BitOutputStream.getCrc16 (w : BitOutputStream) : Except Err (Nat × BitOutputStream) := do
  let _ ← w.checkByteAligned
  let w := w.flush
  .ok (w.crc16, w)

/-- The condition of the `assert((crc8 >> 8) != 0)` executed inside
`BitOutputStream::getCrc8` after the flush.  The assertion aborts when this
evaluates to `false`. -/
def writerCrc8AssertCond (w : BitOutputStream) : Bool :=
  (w.flush.crc8 >>> 8) != 0

/-- The condition of the `assert((crc16 >> 16) != 0)` executed inside
`BitOutputStream::getCrc16` after the flush. -/
def writerCrc16AssertCond (w : BitOutputStream) : Bool :=
  (w.flush.crc16 >>> 16) != 0

/-- `BitOutputStream::getByteCount`. -/
def BitOutputStream.getByteCount (w : BitOutputStream) : Nat :=
  w.byteCount + w.bitBufferLen / 8

/-! ### BitReader (src/decode/AbstractFlacLowLevelInput.{h,cpp} instantiated
over src/decode/ByteArrayFlacInput.h)

`data`/`offset` are the `ByteArrayFlacInput` fields (the underlying byte
array and the position of the next underlying read).  The rest are the
`AbstractFlacLowLevelInput` fields.  `byteBuffer` holds exactly the bytes
loaded by the last refill (the C++ buffer is 4096 bytes; indices at or above
`byteBufferLen` are never read).  `byteBufferLen` is -1 after an end-of-file
refill, hence `Int`.  `bitBuffer` is kept modulo `2 ^ 64`; only the low
`bitBufferLen` bits are meaningful. -/

structure ByteArrayFlacInput where
  data : List Nat
  offset : Nat
  byteBufferStartPos : Nat
  byteBuffer : List Nat
  byteBufferLen : Int
  byteBufferIndex : Nat
  bitBuffer : Nat
  bitBufferLen : Nat
  crc8 : Nat
  crc16 : Nat
  crcStartIndex : Nat
deriving DecidableEq, Repr

/-- A freshly constructed `ByteArrayFlacInput` over byte array `d`: the
constructor calls `positionChanged(0)`, which zeroes the buffer bookkeeping
and resets the CRCs. -/
def freshReader (d : List Nat) : ByteArrayFlacInput :=
  { data := d, offset := 0, byteBufferStartPos := 0, byteBuffer := [],
    byteBufferLen := 0, byteBufferIndex := 0, bitBuffer := 0, bitBufferLen := 0,
    crc8 := 0, crc16 := 0, crcStartIndex := 0 }

/-- `AbstractFlacLowLevelInput::getBitPosition`: `(-bitBufferLen) & 7` on the
promoted `int` equals `(8 - bitBufferLen % 8) % 8`. -/
def ByteArrayFlacInput.getBitPosition (r : ByteArrayFlacInput) : Nat :=
  (8 - r.bitBufferLen % 8) % 8

/-- `AbstractFlacLowLevelInput::getPosition`. -/
def ByteArrayFlacInput.getPosition (r : ByteArrayFlacInput) : Nat :=
  r.byteBufferStartPos + r.byteBufferIndex - (r.bitBufferLen + 7) / 8

/-- `AbstractFlacLowLevelInput::checkByteAligned`. -/
def ByteArrayFlacInput.checkByteAligned (r : ByteArrayFlacInput) : Except Err Unit :=
  if r.bitBufferLen % 8 ≠ 0 then .error .NotAligned else .ok ()

/-- `AbstractFlacLowLevelInput::updateCrcs`: fold the CRC tables over the
byte-buffer range `[crcStartIndex, byteBufferIndex - unusedTrailingBytes)`
and advance `crcStartIndex` to the end of that range. -/
def ByteArrayFlacInput.updateCrcs (unusedTrailingBytes : Nat) (r : ByteArrayFlacInput) :
    ByteArrayFlacInput :=
  let endIdx := r.byteBufferIndex - unusedTrailingBytes
  let cs := (List.range' r.crcStartIndex (endIdx - r.crcStartIndex)).foldl
    (fun (p : Nat × Nat) i =>
      let b := (r.byteBuffer.getD i 0) &&& 0xFF
      (crc8TableEntry (p.1 ^^^ b) &&& 0xFF,
       crc16TableEntry ((p.2 >>> 8) ^^^ b) ^^^ ((p.2 &&& 0xFF) <<< 8)))
    (r.crc8, r.crc16)
  { r with crc8 := cs.1, crc16 := cs.2, crcStartIndex := endIdx }

/-- The no-argument `AbstractFlacLowLevelInput::readUnderlying()`: take the
next byte from the byte buffer, refilling it from the underlying byte array
when exhausted (updating the CRCs first).  `none` models the -1 return at end
of stream.  The refill is `ByteArrayFlacInput::readUnderlying(buf, 0, 4096)`,
which loads `min(length - offset, 4096)` bytes or reports -1 when none
remain. -/
def ByteArrayFlacInput.readUnderlying (r : ByteArrayFlacInput) :
    Option Nat × ByteArrayFlacInput :=
  if (r.byteBufferIndex : Int) ≥ r.byteBufferLen then
    if r.byteBufferLen = -1 then (none, r)
    else
      let r := { r with byteBufferStartPos := r.byteBufferStartPos + r.byteBufferLen.toNat }
      let r := r.updateCrcs 0
      let n := min (r.data.length - r.offset) 4096
      let r := { r with
                 byteBuffer := if n = 0 then r.byteBuffer else (r.data.drop r.offset).take n,
                 byteBufferLen := if n = 0 then (-1 : Int) else (n : Int),
                 offset := r.offset + n,
                 crcStartIndex := 0 }
      if r.byteBufferLen ≤ 0 then (none, r)
      else
        let r := { r with byteBufferIndex := 0 }
        let b := (r.byteBuffer.getD r.byteBufferIndex 0) &&& 0xFF
        (some b, { r with byteBufferIndex := r.byteBufferIndex + 1 })
  else
    let b := (r.byteBuffer.getD r.byteBufferIndex 0) &&& 0xFF
    (some b, { r with byteBufferIndex := r.byteBufferIndex + 1 })

/-- The `while (bitBufferLen < n)` loop of `readUint`: pull one byte at a
time from `readUnderlying` into the bit buffer.  The fuel argument only
bounds the number of iterations; each iteration adds 8 bits, so `n`
iterations always suffice and the `fuel = 0` fallback is never reached for
`fuel ≥ n`. -/
def ByteArrayFlacInput.readUintLoop : Nat → Nat → ByteArrayFlacInput →
    Except Err ByteArrayFlacInput
  | _, 0, r => .ok r
  | n, fuel + 1, r =>
    if r.bitBufferLen < n then
      match r.readUnderlying with
      | (none, _) => .error .EndOfStream
      | (some b, r) =>
        ByteArrayFlacInput.readUintLoop n fuel
          { r with bitBuffer := ((r.bitBuffer <<< 8) ||| b) % 2 ^ 64,
                   bitBufferLen := r.bitBufferLen + 8 }
    else .ok r

/-- `AbstractFlacLowLevelInput::readUint`.  For `n ≠ 32` the result is
masked with `(1 << n) - 1`; for `n = 32` the C++ cast to the 64-bit
`uint_fast32_t` does not truncate, so the raw shifted value is returned. -/
def ByteArrayFlacInput.readUint (n : Nat) (r : ByteArrayFlacInput) :
    Except Err (Nat × ByteArrayFlacInput) :=
  if n > 32 then .error .InvalidArgument
  else
    match r.readUintLoop n n with
    | .error e => .error e
    | .ok r =>
      let result := r.bitBuffer >>> (r.bitBufferLen - n)
      let result := if n ≠ 32 then result &&& ((1 <<< n) - 1) else result
      .ok (result, { r with bitBufferLen := r.bitBufferLen - n })

/-- `AbstractFlacLowLevelInput::readByte`: at a byte boundary, read one byte
from the bit buffer if at least 8 bits are buffered, else straight from
`readUnderlying`; `none` models the -1 end-of-file return. -/
def ByteArrayFlacInput.readByte (r : ByteArrayFlacInput) :
    Except Err (Option Nat × ByteArrayFlacInput) := do
  let _ ← r.checkByteAligned
  if r.bitBufferLen ≥ 8 then
    let (v, r) ← r.readUint 8
    .ok (some v, r)
  else
    match r.readUnderlying with
    | (none, r) => .ok (none, r)
    | (some b, r) => .ok (some b, r)

/-- The loop of `AbstractFlacLowLevelInput::readFully`: `count` calls of
`readUint(8)`, collecting the bytes in order. -/
def ByteArrayFlacInput.readFullyLoop : Nat → ByteArrayFlacInput →
    Except Err (List Nat × ByteArrayFlacInput)
  | 0, r => .ok ([], r)
  | count + 1, r => do
    let (b, r) ← r.readUint 8
    let (bs, r) ← ByteArrayFlacInput.readFullyLoop count r
    .ok (b :: bs, r)

/-- `AbstractFlacLowLevelInput::readFully` for a buffer of `count` bytes. -/
def ByteArrayFlacInput.readFully (count : Nat) (r : ByteArrayFlacInput) :
    Except Err (List Nat × ByteArrayFlacInput) := do
  let _ ← r.checkByteAligned
  ByteArrayFlacInput.readFullyLoop count r

/-- `AbstractFlacLowLevelInput::resetCrcs`. -/
def ByteArrayFlacInput.resetCrcs (r : ByteArrayFlacInput) :
    Except Err ByteArrayFlacInput := do
  let _ ← r.checkByteAligned
  .ok { r with crcStartIndex := r.byteBufferIndex - r.bitBufferLen / 8,
               crc8 := 0, crc16 := 0 }

/-- `AbstractFlacLowLevelInput::getCrc8`, without the C `assert` (whose
condition is modelled separately as `readerCrc8AssertCond`). -/
def ByteArrayFlacInput.getCrc8 (r : ByteArrayFlacInput) :
    Except Err (Nat × ByteArrayFlacInput) := do
  let _ ← r.checkByteAligned
  let r := r.updateCrcs (r.bitBufferLen / 8)
  .ok (r.crc8, r)

/-- `AbstractFlacLowLevelInput::getCrc16`, without the C `assert`. -/
def ByteArrayFlacInput.getCrc16 (r : ByteArrayFlacInput) :
    Except Err (Nat × ByteArrayFlacInput) := do
  let _ ← r.checkByteAligned
  let r := r.updateCrcs (r.bitBufferLen / 8)
  .ok (r.crc16, r)

/-- The condition of the `assert((crc8 >> 8) != 0)` executed inside
`AbstractFlacLowLevelInput::getCrc8` after the pending CRC update.  The
assertion aborts when this evaluates to `false`. -/
def readerCrc8AssertCond (r : ByteArrayFlacInput) : Bool :=
  ((r.updateCrcs (r.bitBufferLen / 8)).crc8 >>> 8) != 0

/-- The condition of the `assert((crc16 >> 16) != 0)` executed inside
`AbstractFlacLowLevelInput::getCrc16` after the pending CRC update. -/
def readerCrc16AssertCond (r : ByteArrayFlacInput) : Bool :=
  ((r.updateCrcs (r.bitBufferLen / 8)).crc16 >>> 16) != 0

/-! ### Rice decoding tables (src/decode/AbstractFlacLowLevelInput.cpp)

The static initializers build, for each parameter `k`, two arrays of length
`2 ^ RICE_DECODING_TABLE_BITS`: the consumed-bits table and the value table.
Both initializer loops have identical structure and are modelled together as
one write list.  The `for (i = 0;; i++)` loop breaks at the first `i` with
`numBits > RICE_DECODING_TABLE_BITS`; since `numBits = (i >> k) + 1 + k` is
nondecreasing in `i`, the loop body runs exactly for `i < (13 - k) * 2 ^ k`
(and not at all when `k ≥ 13`).  Array slots never written keep the value 0,
which is what the fast path tests for (`consumed == 0`). -/

def RICE_DECODING_TABLE_BITS : Nat := 13

def RICE_DECODING_TABLE_LEN : Nat := 31

def RICE_DECODING_CHUNK : Nat := 4

/-- `(i >> 1) ^ -(i & 1)` on a 64-bit signed value: the zig-zag decoding of
an unsigned Rice symbol to a signed integer (xor with -1 is bitwise
complement, i.e. `x ^ -1 = -x - 1`). -/
def riceZigzag (i : Nat) : Int :=
  if i % 2 = 0 then ((i / 2 : Nat) : Int) else -((i / 2 : Nat) : Int) - 1

/-- Number of loop iterations of the table initializer for parameter `k`:
the first `i` whose `numBits = (i >>> k) + 1 + k` exceeds 13. -/
def riceIterCount (k : Nat) : Nat :=
  if k ≤ 12 then (13 - k) <<< k else 0

/-- The sequence of writes `(index, numBits, value)` the two initializer
loops perform on `RICE_DECODING_CONSUMED_TABLES[k]` and
`RICE_DECODING_VALUE_TABLES[k]`: for each symbol `i`, with
`bits = (1 << k) | (i & ((1 << k) - 1))` and `shift = 13 - numBits`, every
index `(bits << shift) | j` for `j < 2 ^ shift` receives consumed `numBits`
and value `zigzag i`. -/
def riceWrites (k : Nat) : List (Nat × Nat × Int) :=
  (List.range (riceIterCount k)).flatMap (fun i =>
    (List.range (1 <<< (RICE_DECODING_TABLE_BITS - ((i >>> k) + 1 + k)))).map (fun j =>
      ((((1 <<< k) ||| (i &&& ((1 <<< k) - 1))) <<<
          (RICE_DECODING_TABLE_BITS - ((i >>> k) + 1 + k))) ||| j,
       ((i >>> k) + 1 + k, riceZigzag i))))

/-- `RICE_DECODING_CONSUMED_TABLES[k][idx]`: the written consumed-bits value,
or 0 for a slot no loop iteration writes.  Distinct loop iterations write
disjoint index sets (the code words form a prefix code), so the first match
is the only match. -/
def riceConsumed (k idx : Nat) : Nat :=
  match (riceWrites k).find? (fun w => w.1 == idx) with
  | some w => w.2.1
  | none => 0

/-- `RICE_DECODING_VALUE_TABLES[k][idx]`: the written value, or 0 for an
unwritten slot. -/
def riceValue (k idx : Nat) : Int :=
  match (riceWrites k).find? (fun w => w.1 == idx) with
  | some w => w.2.2
  | none => 0

/-- The `param < 0 || param > 31` precondition check at the top of
`readRiceSignedInts`. -/
def riceParamCheck (param : Int) : Except Err Unit :=
  if param < 0 ∨ param > 31 then .error .InvalidArgument else .ok ()

/-! The slow path of `readRiceSignedInts`, expressed over the bit stream the
bit buffer delivers (a `List Bool`, MSB first).  `readUnaryLimited` is the
`while (readUint(1) == 0)` loop guarded by `unaryLimit`; `readUintBits` is
`readUint(param)` on the bit stream (MSB-first accumulation). -/

def readUnaryLimited (limit : Nat) : Nat → List Bool → Except Err (Nat × List Bool)
  | _, [] => .error .EndOfStream
  | val, b :: rest =>
    if b then .ok (val, rest)
    else if limit ≤ val then .error .ResidualTooLarge
    else readUnaryLimited limit (val + 1) rest

def readUintBits (acc : Nat) : Nat → List Bool → Except Err (Nat × List Bool)
  | 0, bs => .ok (acc, bs)
  | _ + 1, [] => .error .EndOfStream
  | n + 1, b :: bs => readUintBits (2 * acc + (if b then 1 else 0)) n bs

/-- The slow decoder for one Rice symbol with parameter `param`:
`unaryLimit = 1 << (53 - param)` zeros at most, a terminating one, a
`param`-bit remainder, then `val = (q << param) | r` zig-zagged to signed.
Returns the decoded signed value and the remaining bits. -/
def riceSlowDecode (param : Nat) (bs : List Bool) : Except Err (Int × List Bool) :=
  match readUnaryLimited (1 <<< (53 - param)) 0 bs with
  | .error e => .error e
  | .ok (q, rest) =>
    match readUintBits 0 param rest with
    | .error e => .error e
    | .ok (r, rest2) => .ok (riceZigzag ((q <<< param) ||| r), rest2)

/-! ### SeekTable (src/common/SeekTable.h, src/unnamed/part_002) -/

structure SeekPoint where
  sampleOffset : Nat
  fileOffset : Nat
  frameSamples : Nat
deriving DecidableEq, Repr

/-- The loop body of `SeekTable::checkValues` starting from the pair
`(points[i-1], points[i])`: every point that is not a placeholder is
compared against its immediate predecessor. -/
def SeekTable.checkValuesFrom : SeekPoint → List SeekPoint → Except Err Unit
  | _, [] => .ok ()
  | q, p :: rest =>
    if p.sampleOffset ≠ 0xFFFFFFFFFFFFFFFF then
      if p.sampleOffset ≤ q.sampleOffset then .error .InvalidState
      else if p.fileOffset < q.fileOffset then .error .InvalidState
      else SeekTable.checkValuesFrom p rest
    else SeekTable.checkValuesFrom p rest

/-- `SeekTable::checkValues` over the list of seek points. -/
def SeekTable.checkValues : List SeekPoint → Except Err Unit
  | [] => .ok ()
  | p :: rest => SeekTable.checkValuesFrom p rest

/-! ### StreamInfo (src/common/StreamInfo.h, src/unnamed/part_000)

All fields are unsigned in the C++ (`uint_fast16_t`/`uint_fast32_t`/
`uint_fast8_t`/`uint_fast64_t` and an `unsigned char[16]`), so they are
`Nat` here. -/

structure StreamInfo where
  minBlockSize : Nat
  maxBlockSize : Nat
  minFrameSize : Nat
  maxFrameSize : Nat
  sampleRate : Nat
  numChannels : Nat
  sampleDepth : Nat
  numSamples : Nat
  md5Hash : List Nat
deriving DecidableEq, Repr

/-- `StreamInfo::checkValues`: pure width/range checks, in source order.
The `std::runtime_error` throws map to `InvalidState`. -/
def StreamInfo.checkValues (si : StreamInfo) : Except Err Unit :=
  if si.minBlockSize >>> 16 ≠ 0 then .error .InvalidState
  else if si.maxBlockSize >>> 16 ≠ 0 then .error .InvalidState
  else if si.minFrameSize >>> 24 ≠ 0 then .error .InvalidState
  else if si.maxFrameSize >>> 24 ≠ 0 then .error .InvalidState
  else if si.sampleRate = 0 ∨ si.sampleRate >>> 20 ≠ 0 then .error .InvalidState
  else if si.numChannels < 1 ∨ si.numChannels > 8 then .error .InvalidState
  else if si.sampleDepth < 4 ∨ si.sampleDepth > 32 then .error .InvalidState
  else if si.numSamples >>> 36 ≠ 0 then .error .InvalidState
  else .ok ()

/-- The md5 write loop of `StreamInfo::write`:
`for (unsigned char b : md5Hash) out->writeInt(8, b)`. -/
def StreamInfo.writeMd5 : List Nat → BitOutputStream → Except Err BitOutputStream
  | [], w => .ok w
  | b :: bs, w => do
    let w ← w.writeInt 8 (b : Int)
    StreamInfo.writeMd5 bs w

/-- `StreamInfo::write`: validate, then emit the metadata block header
(isLast bit, type 0, length 34) followed by the 34-byte payload. -/
def StreamInfo.write (last : Bool) (si : StreamInfo) (w : BitOutputStream) :
    Except Err BitOutputStream := do
  let _ ← si.checkValues
  let w ← w.writeInt 1 (if last then 1 else 0)
  let w ← w.writeInt 7 0
  let w ← w.writeInt 24 34
  let w ← w.writeInt 16 (si.minBlockSize : Int)
  let w ← w.writeInt 16 (si.maxBlockSize : Int)
  let w ← w.writeInt 24 (si.minFrameSize : Int)
  let w ← w.writeInt 24 (si.maxFrameSize : Int)
  let w ← w.writeInt 20 (si.sampleRate : Int)
  let w ← w.writeInt 3 ((si.numChannels : Int) - 1)
  let w ← w.writeInt 5 ((si.sampleDepth : Int) - 1)
  let w ← w.writeInt 18 ((si.numSamples >>> 18 : Nat) : Int)
  let w ← w.writeInt 18 ((si.numSamples >>> 0 : Nat) : Int)
  StreamInfo.writeMd5 si.md5Hash w

/-- The parsing constructor `StreamInfo::StreamInfo(uint_fast8_t[], len)`:
read the 34-byte payload through a `ByteArrayFlacInput`, validating ranges
in source order. -/
def StreamInfo.parse (b : List Nat) : Except Err StreamInfo :=
  if b.length ≠ 34 then .error .InvalidArgument
  else do
    let r := freshReader b
    let (minBS, r) ← r.readUint 16
    let (maxBS, r) ← r.readUint 16
    let (minFS, r) ← r.readUint 24
    let (maxFS, r) ← r.readUint 24
    if minBS < 16 then .error .InvalidData
    else if maxBS < minBS then .error .InvalidData
    else if minFS ≠ 0 ∧ maxFS ≠ 0 ∧ maxFS < minFS then .error .InvalidData
    else do
      let (sr, r) ← r.readUint 20
      if sr = 0 ∨ sr > 655350 then .error .InvalidData
      else do
        let (nc, r) ← r.readUint 3
        let (sd, r) ← r.readUint 5
        let (nsHi, r) ← r.readUint 18
        let (nsLo, r) ← r.readUint 18
        let (md5, _) ← r.readFully 16
        .ok { minBlockSize := minBS, maxBlockSize := maxBS,
              minFrameSize := minFS, maxFrameSize := maxFS,
              sampleRate := sr, numChannels := nc + 1, sampleDepth := sd + 1,
              numSamples := (nsHi <<< 18) ||| nsLo, md5Hash := md5 }

/-! ### Utilities (src/unnamed/part_001)

`numberOfLeadingZeros32` takes a `uint_fast32_t` (64-bit unsigned on the
build platforms); its callers pass values below `2 ^ 32`, and then all
intermediate values stay below `2 ^ 32`, so no wrap is modelled.

`numberOfLeadingZeros64` declares `int x` (signed 32 bits), so its left
shifts wrap modulo `2 ^ 32` and its right shifts are arithmetic.  The
`x >> 16 == 0`-style tests agree with logical shifts (a negative `x` never
compares equal to 0), but the final `n -= x >> 31` subtracts -1 instead of 1
when bit 31 of `x` is set, adding 2 to the result for exactly those inputs
whose normalized word has its leading 1 at bit 31. -/

def numberOfLeadingZeros32 (i : Nat) : Nat :=
  if i = 0 then 32
  else
    let n := 1
    let p := if i >>> 16 = 0 then (n + 16, i <<< 16) else (n, i)
    let n := p.1; let i := p.2
    let p := if i >>> 24 = 0 then (n + 8, i <<< 8) else (n, i)
    let n := p.1; let i := p.2
    let p := if i >>> 28 = 0 then (n + 4, i <<< 4) else (n, i)
    let n := p.1; let i := p.2
    let p := if i >>> 30 = 0 then (n + 2, i <<< 2) else (n, i)
    let n := p.1; let i := p.2
    n - (i >>> 31)

def numberOfLeadingZeros64 (i : Nat) : Nat :=
  if i = 0 then 64
  else
    let n := 1
    let x := i >>> 32
    let p := if x = 0 then (n + 32, i % 2 ^ 32) else (n, x)
    let n := p.1; let x := p.2
    let p := if x >>> 16 = 0 then (n + 16, (x <<< 16) % 2 ^ 32) else (n, x)
    let n := p.1; let x := p.2
    let p := if x >>> 24 = 0 then (n + 8, (x <<< 8) % 2 ^ 32) else (n, x)
    let n := p.1; let x := p.2
    let p := if x >>> 28 = 0 then (n + 4, (x <<< 4) % 2 ^ 32) else (n, x)
    let n := p.1; let x := p.2
    let p := if x >>> 30 = 0 then (n + 2, (x <<< 2) % 2 ^ 32) else (n, x)
    let n := p.1; let x := p.2
    if x >>> 31 = 1 then n + 1 else n

/-! ### FrameInfo (src/common/FrameInfo.{h,cpp})

Signed `int_fast32_t`/`int_fast64_t` fields become `Int` (with -1 the
"absent" sentinel, as in the source). -/

structure FrameInfo where
  frameIndex : Int
  sampleOffset : Int
  numChannels : Int
  channelAssignment : Int
  blockSize : Int
  sampleRate : Int
  sampleDepth : Int
  frameSize : Int
deriving DecidableEq, Repr

def BLOCK_SIZE_CODES : List (Int × Int) :=
  [(192, 1), (576, 2), (1152, 3), (2304, 4), (4608, 5), (256, 8), (512, 9),
   (1024, 10), (2048, 11), (4096, 12), (8192, 13), (16384, 14), (32768, 15)]

def SAMPLE_DEPTH_CODES : List (Int × Int) :=
  [(8, 1), (12, 2), (16, 4), (20, 5), (24, 6)]

def SAMPLE_RATE_CODES : List (Int × Int) :=
  [(88200, 1), (176400, 2), (192000, 3), (8000, 4), (16000, 5), (22050, 6),
   (24000, 7), (32000, 8), (44100, 9), (48000, 10), (96000, 11)]

/-- `FrameInfo::searchFirst`: first row whose column 0 equals the key,
returning its column 1, or -1. -/
def searchFirst (table : List (Int × Int)) (key : Int) : Int :=
  match table.find? (fun p => p.1 == key) with
  | some p => p.2
  | none => -1

/-- `FrameInfo::searchSecond`: first row whose column 1 equals the key,
returning its column 0, or -1. -/
def searchSecond (table : List (Int × Int)) (key : Int) : Int :=
  match table.find? (fun p => p.2 == key) with
  | some p => p.1
  | none => -1

/-- `FrameInfo::getBlockSizeCode`. -/
def FrameInfo.getBlockSizeCode (blockSize : Int) : Except Err Int :=
  let result := searchFirst BLOCK_SIZE_CODES blockSize
  if result ≠ -1 then .ok result
  else if 1 ≤ blockSize ∧ blockSize ≤ 256 then .ok 6
  else if 1 ≤ blockSize ∧ blockSize ≤ 65536 then .ok 7
  else .error .InvalidArgument

/-- `FrameInfo::getSampleRateCode`. -/
def FrameInfo.getSampleRateCode (sampleRate : Int) : Except Err Int :=
  if sampleRate ≤ 0 then .error .InvalidArgument
  else
    let result := searchFirst SAMPLE_RATE_CODES sampleRate
    if result ≠ -1 then .ok result
    else if 0 ≤ sampleRate ∧ sampleRate < 256 then .ok 12
    else if 0 ≤ sampleRate ∧ sampleRate < 65536 then .ok 13
    else if 0 ≤ sampleRate ∧ sampleRate < 655360 ∧ sampleRate % 10 = 0 then .ok 14
    else .ok 0

/-- `FrameInfo::getSampleDepthCode`. -/
def FrameInfo.getSampleDepthCode (sampleDepth : Int) : Except Err Int :=
  if sampleDepth ≠ -1 ∧ (sampleDepth < 1 ∨ sampleDepth > 32) then .error .InvalidArgument
  else
    let result := searchFirst SAMPLE_DEPTH_CODES sampleDepth
    .ok (if result = -1 then 0 else result)

/-- The continuation-byte loop of `FrameInfo::writeUtf8Integer`, for
`i = n - 1` down to 0: each byte is `0x80 | ((val >> (i * 6)) & 0x3F)`. -/
def FrameInfo.writeUtf8Conts (val : Nat) : Nat → BitOutputStream →
    Except Err BitOutputStream
  | 0, w => .ok w
  | i + 1, w => do
    let w ← w.writeInt 8 ((0x80 ||| ((val >>> (i * 6)) &&& 0x3F) : Nat) : Int)
    FrameInfo.writeUtf8Conts val i w

/-- `FrameInfo::writeUtf8Integer`: reject values not fitting 36 bits, then
emit 1 to 7 bytes based on `bitLen = 64 - numberOfLeadingZeros64(val)`. -/
def FrameInfo.writeUtf8Integer (val : Nat) (w : BitOutputStream) :
    Except Err BitOutputStream :=
  if val >>> 36 ≠ 0 then .error .InvalidArgument
  else
    let bitLen := 64 - numberOfLeadingZeros64 val
    if bitLen ≤ 7 then w.writeInt 8 (val : Int)
    else do
      let n := (bitLen - 2) / 5
      let w ← w.writeInt 8 (((0xFF80 >>> n) ||| (val >>> (n * 6)) : Nat) : Int)
      FrameInfo.writeUtf8Conts val n w

/-- The continuation-byte loop of `FrameInfo::readUtf8Integer`: read a byte,
require its top two bits to be `10`, and append its low 6 bits. -/
def FrameInfo.readUtf8Conts (acc : Nat) : Nat → ByteArrayFlacInput →
    Except Err (Nat × ByteArrayFlacInput)
  | 0, r => .ok (acc, r)
  | i + 1, r => do
    let (temp, r) ← r.readUint 8
    if temp &&& 0xC0 ≠ 0x80 then .error .InvalidData
    else FrameInfo.readUtf8Conts ((acc <<< 6) ||| (temp &&& 0x3F)) i r

/-- `FrameInfo::readUtf8Integer`.  The head-byte class is
`n = numberOfLeadingZeros32((uint32_t) ~(head << 24))`; the cast keeps the
low 32 bits of the complement, i.e. `0xFFFFFFFF ^ (head << 24)` for a head
byte below 256. -/
def FrameInfo.readUtf8Integer (r : ByteArrayFlacInput) :
    Except Err (Nat × ByteArrayFlacInput) := do
  let (head, r) ← r.readUint 8
  let n := numberOfLeadingZeros32 (0xFFFFFFFF ^^^ ((head <<< 24) % 2 ^ 32))
  if n = 0 then .ok (head, r)
  else if n = 1 ∨ n = 8 then .error .InvalidData
  else do
    let (result, r) ← FrameInfo.readUtf8Conts (head &&& (0x7F >>> n)) (n - 1) r
    if result >>> 36 ≠ 0 then .error .InvalidData
    else .ok (result, r)

/-- `FrameInfo::decodeBlockSize`. -/
def FrameInfo.decodeBlockSize (code : Nat) (r : ByteArrayFlacInput) :
    Except Err (Int × ByteArrayFlacInput) :=
  if code >>> 4 ≠ 0 then .error .InvalidArgument
  else if code = 0 then .error .InvalidData
  else if code = 6 then do
    let (v, r) ← r.readUint 8
    .ok ((v : Int) + 1, r)
  else if code = 7 then do
    let (v, r) ← r.readUint 16
    .ok ((v : Int) + 1, r)
  else .ok (searchSecond BLOCK_SIZE_CODES (code : Int), r)

/-- `FrameInfo::decodeSampleRate`. -/
def FrameInfo.decodeSampleRate (code : Nat) (r : ByteArrayFlacInput) :
    Except Err (Int × ByteArrayFlacInput) :=
  if code >>> 4 ≠ 0 then .error .InvalidArgument
  else if code = 0 then .ok (-1, r)
  else if code = 12 then do
    let (v, r) ← r.readUint 8
    .ok ((v : Int), r)
  else if code = 13 then do
    let (v, r) ← r.readUint 16
    .ok ((v : Int), r)
  else if code = 14 then do
    let (v, r) ← r.readUint 16
    .ok ((v : Int) * 10, r)
  else if code = 15 then .error .InvalidData
  else .ok (searchSecond SAMPLE_RATE_CODES (code : Int), r)

/-- `FrameInfo::decodeSampleDepth`. -/
def FrameInfo.decodeSampleDepth (code : Nat) : Except Err Int :=
  if code >>> 3 ≠ 0 then .error .InvalidArgument
  else if code = 0 then .ok (-1)
  else
    let result := searchSecond SAMPLE_DEPTH_CODES (code : Int)
    if result = -1 then .error .InvalidData
    else .ok result

/-- `FrameInfo::writeHeader`: reset CRCs, write the fixed 32 header bits,
the UTF-8 position field (always from `sampleOffset`, cast to
`uint_fast64_t`, i.e. modulo `2 ^ 64`), the optional block-size and
sample-rate tails, then the CRC-8 so far. -/
def FrameInfo.writeHeader (fi : FrameInfo) (w : BitOutputStream) :
    Except Err BitOutputStream := do
  let w := w.resetCrcs
  let w ← w.writeInt 14 0x3FFE
  let w ← w.writeInt 1 0
  let w ← w.writeInt 1 1
  let blockSizeCode ← FrameInfo.getBlockSizeCode fi.blockSize
  let w ← w.writeInt 4 blockSizeCode
  let sampleRateCode ← FrameInfo.getSampleRateCode fi.sampleRate
  let w ← w.writeInt 4 sampleRateCode
  let w ← w.writeInt 4 fi.channelAssignment
  let sampleDepthCode ← FrameInfo.getSampleDepthCode fi.sampleDepth
  let w ← w.writeInt 3 sampleDepthCode
  let w ← w.writeInt 1 0
  let w ←
    if (fi.frameIndex ≠ -1 ∧ fi.sampleOffset = -1) ∨
       (fi.sampleOffset ≠ -1 ∧ fi.frameIndex = -1) then
      FrameInfo.writeUtf8Integer ((fi.sampleOffset % (2 ^ 64 : Int)).toNat) w
    else .error .InvalidState
  let w ←
    if blockSizeCode = 6 then w.writeInt 8 (fi.blockSize - 1)
    else if blockSizeCode = 7 then w.writeInt 16 (fi.blockSize - 1)
    else .ok w
  let w ←
    if sampleRateCode = 12 then w.writeInt 8 fi.sampleRate
    else if sampleRateCode = 13 then w.writeInt 16 fi.sampleRate
    else if sampleRateCode = 14 then w.writeInt 16 (fi.sampleRate / 10)
    else .ok w
  let (c, w) ← w.getCrc8
  w.writeInt 8 (c : Int)

/-- `FrameInfo::readFrame`: reset CRCs, detect immediate end of file, check
the 14-bit sync, parse the fixed fields, the UTF-8 position, the
variable-length block-size and sample-rate fields, and verify the CRC-8. -/
def FrameInfo.readFrame (r : ByteArrayFlacInput) :
    Except Err (Option FrameInfo × ByteArrayFlacInput) := do
  let r ← r.resetCrcs
  let (temp, r) ← r.readByte
  match temp with
  | none => .ok (none, r)
  | some temp => do
    let (u6, r) ← r.readUint 6
    let sync := (temp <<< 6) ||| u6
    if sync ≠ 0x3FFE then .error .InvalidData
    else do
      let (res1, r) ← r.readUint 1
      if res1 ≠ 0 then .error .InvalidData
      else do
        let (blockStrategy, r) ← r.readUint 1
        let (blockSizeCode, r) ← r.readUint 4
        let (sampleRateCode, r) ← r.readUint 4
        let (chanAsgn, r) ← r.readUint 4
        let numChannels ←
          if chanAsgn < 8 then .ok ((chanAsgn : Int) + 1)
          else if chanAsgn ≤ 10 then .ok (2 : Int)
          else .error .InvalidData
        let (sdCode, r) ← r.readUint 3
        let sampleDepth ← FrameInfo.decodeSampleDepth sdCode
        let (res2, r) ← r.readUint 1
        if res2 ≠ 0 then .error .InvalidData
        else do
          let (position, r) ← FrameInfo.readUtf8Integer r
          let fi ←
            if blockStrategy = 0 then
              if position >>> 31 ≠ 0 then .error .InvalidData
              else .ok ((position : Int), (-1 : Int))
            else if blockStrategy = 1 then .ok ((-1 : Int), (position : Int))
            else .error .InvalidData
          let (blockSize, r) ← FrameInfo.decodeBlockSize blockSizeCode r
          let (sampleRate, r) ← FrameInfo.decodeSampleRate sampleRateCode r
          let (computedCrc8, r) ← r.getCrc8
          let (c, r) ← r.readUint 8
          if c ≠ computedCrc8 then .error .InvalidData
          else
            .ok (some { frameIndex := fi.1, sampleOffset := fi.2,
                        numChannels := numChannels,
                        channelAssignment := (chanAsgn : Int),
                        blockSize := blockSize, sampleRate := sampleRate,
                        sampleDepth := sampleDepth, frameSize := -1 }, r)

/-! ### Shared concrete scenarios -/

/-- The byte sequence of specification scenario 6 ("Monkey"). -/
def monkeyBytes : List Nat := [0x4D, 0x6F, 0x6E, 0x6B, 0x65, 0x79]

/-- Read `n` whole bytes through `readUint(8)`, discarding the values. -/
def readBytes : Nat → ByteArrayFlacInput → Except Err ByteArrayFlacInput
  | 0, r => .ok r
  | n + 1, r => do
    let (_, r) ← r.readUint 8
    readBytes n r

/-- Write a byte sequence through `writeInt(8, b)`. -/
def writeBytes : List Nat → BitOutputStream → Except Err BitOutputStream
  | [], w => .ok w
  | b :: bs, w => do
    let w ← w.writeInt 8 (b : Int)
    writeBytes bs w

/-- The frame info of specification scenario 3: variable block strategy,
`sampleOffset = 0`, two independent channels, block size 512, sample rate
44100, sample depth 16. -/
def frameScenario : FrameInfo :=
  { frameIndex := -1, sampleOffset := 0, numChannels := 2, channelAssignment := 1,
    blockSize := 512, sampleRate := 44100, sampleDepth := 16, frameSize := -1 }

/-! ### Claim C2 -/

/-- C2: evaluation at the failing input.  Reading the Monkey bytes through a
`ByteArrayFlacInput` after `resetCrcs` yields exactly the standalone CRC-8
(0x4C) and CRC-16 (0x4BFE) of the span, as the claim states; but the
`BitOutputStream` that writes the same bytes after its own `resetCrcs`
returns 0 from `getCrc8` (its 8-bit `uint_fast8_t` accumulator truncates the
shifted-out bit before the polynomial feedback, so the feedback xor is dead
code), while its `getCrc16` does agree.  Since the standalone CRC-8 of the
span is 0x4C ≠ 0, reader and writer disagree and the claim fails on the
writer half. -/
theorem C2_crc_reader_matches_writer_crc8_stuck_at_zero :
    (do
      let r ← (freshReader monkeyBytes).resetCrcs
      let r ← readBytes 6 r
      let (c8, r) ← r.getCrc8
      let (c16, _) ← r.getCrc16
      pure (c8, c16) : Except Err (Nat × Nat)) =
        .ok (crc8Standalone monkeyBytes, crc16Standalone monkeyBytes) ∧
    (do
      let w ← writeBytes monkeyBytes freshWriter.resetCrcs
      let (c8, w) ← w.getCrc8
      let (c16, _) ← w.getCrc16
      pure (c8, c16) : Except Err (Nat × Nat)) =
        .ok (0, crc16Standalone monkeyBytes) ∧
    crc8Standalone monkeyBytes = 0x4C ∧ (0x4C : Nat) ≠ 0 :=
  ⟨rfl, rfl, rfl, by decide⟩

/-! ### Claim C3 -/

/-- C3: evaluation at the failing input.  In the states reached by resetting
CRCs and consuming the Monkey bytes, the CRC accumulators do fit their
stated widths (`crc8 < 2 ^ 8`, `crc16 < 2 ^ 16`) on both the reader and the
writer — and for precisely that reason the `assert((crc8 >> 8) != 0)` and
`assert((crc16 >> 16) != 0)` conditions inside `getCrc8`/`getCrc16` are
false, so every one of those assertions fails rather than succeeds: the
asserted condition is inverted in the source. -/
theorem C3_crc_asserts_inverted :
    (Except.map (fun r => (decide (r.crc8 < 2 ^ 8) && decide (r.crc16 < 2 ^ 16) &&
        !readerCrc8AssertCond r && !readerCrc16AssertCond r))
      (do
        let r ← (freshReader monkeyBytes).resetCrcs
        readBytes 6 r)) = .ok true ∧
    (Except.map (fun w => (decide (w.crc8 < 2 ^ 8) && decide (w.crc16 < 2 ^ 16) &&
        !writerCrc8AssertCond w && !writerCrc16AssertCond w))
      (writeBytes monkeyBytes freshWriter.resetCrcs)) = .ok true ∧
    readerCrc8AssertCond (freshReader monkeyBytes) = false ∧
    writerCrc8AssertCond freshWriter = false :=
  ⟨rfl, rfl, rfl, rfl⟩

/-! ### Claim C6 -/

/-- C6: evaluation at the failing input.  `writeHeader` on the scenario
frame info emits the six bytes FF F9 99 18 00 00 — sync, flags and position
as the claim states, but a trailing CRC-8 byte of 0x00, because the writer
CRC-8 accumulator is stuck at zero (see C2).  The true CRC-8 of the first
five header bytes is 0xF0, so `readFrame` on the written bytes fails with a
CRC-8 mismatch (`InvalidData`) instead of round-tripping; with the correct
trailing byte 0xF0 the parse succeeds and returns exactly the claimed
fields. -/
theorem C6_frame_header_roundtrip_broken_by_writer_crc8 :
    (FrameInfo.writeHeader frameScenario freshWriter).map (fun w => w.flush.outBytes) =
      .ok [0xFF, 0xF9, 0x99, 0x18, 0x00, 0x00] ∧
    FrameInfo.readFrame (freshReader [0xFF, 0xF9, 0x99, 0x18, 0x00, 0x00]) =
      .error .InvalidData ∧
    crc8Standalone [0xFF, 0xF9, 0x99, 0x18, 0x00] = 0xF0 ∧
    (FrameInfo.readFrame (freshReader [0xFF, 0xF9, 0x99, 0x18, 0x00, 0xF0])).map
        (fun p => p.1) = .ok (some frameScenario) :=
  ⟨rfl, rfl, rfl, rfl⟩

/-! ### Claim C7 -/

/-- C7: evaluation at the failing input.  For v = 128, `writeUtf8Integer`
emits the single byte 0x80: the buggy 64-bit `numberOfLeadingZeros` returns
58 instead of 56 (its final `n -= x >> 31` uses a C arithmetic shift on a
signed 32-bit intermediate, adding 1 instead of subtracting 1 when bit 31 is
set), so `bitLen` computes to 6 ≤ 7 and the single-byte branch is taken.
`readUtf8Integer` applied to exactly those bytes then fails with
`InvalidData` (head byte with exactly one leading 1 bit) instead of
returning 128, refuting the round-trip half of the claim. -/
theorem C7_utf8_roundtrip_broken_at_128 :
    (FrameInfo.writeUtf8Integer 128 freshWriter).map (fun w => w.flush.outBytes) =
      .ok [0x80] ∧
    FrameInfo.readUtf8Integer (freshReader [0x80]) = .error .InvalidData ∧
    numberOfLeadingZeros64 128 = 58 ∧ (128 : Nat) < 2 ^ 36 :=
  ⟨rfl, rfl, rfl, by decide⟩

/-! ### Claim C8 -/

/-- C8: evaluation at the failing input.  A single seek point with
`frameSamples = 70000` (which does not fit 16 bits) is accepted silently by
`SeekTable::checkValues` — the source checks only the ordering of
consecutive points and never examines `frameSamples`, contradicting both the
claim and the documented criteria in SeekTable.h.  The ordering checks
themselves behave as claimed on the specification scenario. -/
theorem C8_checkValues_ignores_frameSamples :
    SeekTable.checkValues [⟨0, 0, 70000⟩] = .ok () ∧
    ¬ ((⟨0, 0, 70000⟩ : SeekPoint).frameSamples < 2 ^ 16) ∧
    SeekTable.checkValues
      [⟨0, 0, 4096⟩, ⟨4096, 1024, 4096⟩, ⟨0xFFFFFFFFFFFFFFFF, 0, 0⟩] = .ok () ∧
    SeekTable.checkValues
      [⟨4096, 1024, 4096⟩, ⟨0, 0, 4096⟩, ⟨0xFFFFFFFFFFFFFFFF, 0, 0⟩] =
      .error .InvalidState :=
  ⟨rfl, by decide, rfl, rfl⟩

/-! ### Claim C9 -/

/-- C9 counterexample: `readRiceSignedInts` accepts `param = 31`, but the
Rice decoding tables are built only for parameters 0..30
(`RICE_DECODING_TABLE_LEN = 31` entries), so the accepted parameter 31 is
not within the bounds of the tables, refuting the claim as stated. -/
theorem C9_counterexample_param31_out_of_bounds :
    riceParamCheck 31 = .ok () ∧ ¬ ((31 : Int).toNat < RICE_DECODING_TABLE_LEN) :=
  ⟨rfl, by decide⟩

/-- C9 amended: `readRiceSignedInts` rejects every param outside [0, 31]
with `InvalidArgument` and accepts the rest; for every accepted param in
[0, 30] the table lookups are within the bounds of the tables (which are
built exactly for parameters 0..30, `RICE_DECODING_TABLE_LEN = 31`); the
accepted param 31 indexes one past the end. -/
theorem C9_param_check_and_table_bounds (p : Int) :
    (riceParamCheck p = .ok () ↔ 0 ≤ p ∧ p ≤ 31) ∧
    (riceParamCheck p = .error .InvalidArgument ↔ p < 0 ∨ p > 31) ∧
    (0 ≤ p → p ≤ 30 → p.toNat < RICE_DECODING_TABLE_LEN) := by
  by_cases hp : p < 0 ∨ p > 31
  · have h1 : riceParamCheck p = .error .InvalidArgument := by
      unfold riceParamCheck; simp [hp]
    rw [h1]
    exact ⟨⟨fun h => by simp at h, fun h => by omega⟩,
           ⟨fun _ => hp, fun _ => rfl⟩,
           fun h1 h2 => by omega⟩
  · have h1 : riceParamCheck p = .ok () := by
      unfold riceParamCheck; simp [hp]
    rw [h1]
    exact ⟨⟨fun _ => by omega, fun _ => rfl⟩,
           ⟨fun h => by simp at h, fun h => (hp h).elim⟩,
           fun h1 h2 => by simp only [RICE_DECODING_TABLE_LEN]; omega⟩

/-- C9 witness: the amended theorem applied at param 30. -/
theorem C9_witness :
    riceParamCheck 30 = .ok () ∧ (30 : Int).toNat < RICE_DECODING_TABLE_LEN :=
  ⟨(C9_param_check_and_table_bounds 30).1.mpr (by decide),
   (C9_param_check_and_table_bounds 30).2.2 (by decide) (by decide)⟩

/-! ### Claim C4 -/

/-- The simultaneous data-model ranges of specification section 3 for a
`StreamInfo` (the claim side of C4 and the validity hypothesis of C5),
stated from the words of the spec. -/
def streamInfoSpecRanges (si : StreamInfo) : Prop :=
  16 ≤ si.minBlockSize ∧ si.minBlockSize < 2 ^ 16 ∧
  si.minBlockSize ≤ si.maxBlockSize ∧ si.maxBlockSize < 2 ^ 16 ∧
  si.minFrameSize < 2 ^ 24 ∧ si.maxFrameSize < 2 ^ 24 ∧
  (si.minFrameSize ≠ 0 → si.maxFrameSize ≠ 0 → si.minFrameSize ≤ si.maxFrameSize) ∧
  1 ≤ si.sampleRate ∧ si.sampleRate ≤ 655350 ∧
  1 ≤ si.numChannels ∧ si.numChannels ≤ 8 ∧
  4 ≤ si.sampleDepth ∧ si.sampleDepth ≤ 32 ∧
  si.numSamples < 2 ^ 36

instance (si : StreamInfo) : Decidable (streamInfoSpecRanges si) := by
  unfold streamInfoSpecRanges; infer_instance

/-- The ranges `StreamInfo::checkValues` actually enforces: pure
representation-width checks (each field fits its on-wire width, the sample
rate is nonzero and fits 20 bits, channels and depth are in their enumerated
ranges).  Unlike the claim, there is no `minBlockSize ≥ 16`, no
`maxBlockSize ≥ minBlockSize`, no `maxFrameSize ≥ minFrameSize`, and no
`sampleRate ≤ 655350`. -/
def streamInfoCheckedRanges (si : StreamInfo) : Prop :=
  si.minBlockSize < 2 ^ 16 ∧ si.maxBlockSize < 2 ^ 16 ∧
  si.minFrameSize < 2 ^ 24 ∧ si.maxFrameSize < 2 ^ 24 ∧
  1 ≤ si.sampleRate ∧ si.sampleRate < 2 ^ 20 ∧
  1 ≤ si.numChannels ∧ si.numChannels ≤ 8 ∧
  4 ≤ si.sampleDepth ∧ si.sampleDepth ≤ 32 ∧
  si.numSamples < 2 ^ 36

instance (si : StreamInfo) : Decidable (streamInfoCheckedRanges si) := by
  unfold streamInfoCheckedRanges; infer_instance

theorem streamInfo_checkValues_iff (si : StreamInfo) :
    StreamInfo.checkValues si = .ok () ↔ streamInfoCheckedRanges si := by
  constructor
  · intro h
    unfold StreamInfo.checkValues at h
    split_ifs at h with h1 h2 h3 h4 h5 h6 h7 h8
    all_goals try simp at h
    unfold streamInfoCheckedRanges
    simp only [Nat.shiftRight_eq_div_pow, ne_eq, not_or, not_not] at h1 h2 h3 h4 h5 h6 h7 h8
    omega
  · intro h
    unfold streamInfoCheckedRanges at h
    obtain ⟨k1, k2, k3, k4, k5, k6, k7, k8, k9, k10, k11⟩ := h
    unfold StreamInfo.checkValues
    split_ifs with h1 h2 h3 h4 h5 h6 h7 h8 <;>
      first
        | rfl
        | (exfalso
           simp only [Nat.shiftRight_eq_div_pow, ne_eq, not_or, not_not] at *
           omega)

theorem streamInfo_checkValues_error (si : StreamInfo)
    (h : ¬ streamInfoCheckedRanges si) :
    StreamInfo.checkValues si = .error .InvalidState := by
  unfold StreamInfo.checkValues
  split_ifs with h1 h2 h3 h4 h5 h6 h7 h8 <;>
    first
      | rfl
      | (exfalso
         apply h
         unfold streamInfoCheckedRanges
         simp only [Nat.shiftRight_eq_div_pow, ne_eq, not_or, not_not] at *
         omega)

theorem streamInfo_writeMd5_ok (ms : List Nat) (w : BitOutputStream) :
    ∃ w2, StreamInfo.writeMd5 ms w = .ok w2 := by
  induction ms generalizing w with
  | nil => exact ⟨w, rfl⟩
  | cons b bs ih => exact ih _

/-- C4 counterexample: the `StreamInfo` with `minBlockSize = 0`,
`maxBlockSize = 0`, frame sizes 0, `sampleRate = 1`, one channel, depth 4
and zero samples violates the claimed ranges (`minBlockSize ≥ 16` fails),
yet `checkValues` returns silently and `write` emits the block without
`InvalidState`. -/
theorem C4_counterexample_checkValues_accepts_small_minBlockSize :
    StreamInfo.checkValues
      { minBlockSize := 0, maxBlockSize := 0, minFrameSize := 0, maxFrameSize := 0,
        sampleRate := 1, numChannels := 1, sampleDepth := 4, numSamples := 0,
        md5Hash := List.replicate 16 0 } = .ok () ∧
    ¬ streamInfoSpecRanges
      { minBlockSize := 0, maxBlockSize := 0, minFrameSize := 0, maxFrameSize := 0,
        sampleRate := 1, numChannels := 1, sampleDepth := 4, numSamples := 0,
        md5Hash := List.replicate 16 0 } ∧
    (StreamInfo.write true
      { minBlockSize := 0, maxBlockSize := 0, minFrameSize := 0, maxFrameSize := 0,
        sampleRate := 1, numChannels := 1, sampleDepth := 4, numSamples := 0,
        md5Hash := List.replicate 16 0 } freshWriter).isOk = true :=
  ⟨rfl, by decide, rfl⟩

/-- C4 amended: `StreamInfo::checkValues` returns silently if and only if
every field fits its representation width (`minBlockSize`, `maxBlockSize`
within 16 bits, frame sizes within 24 bits, `1 ≤ sampleRate < 2 ^ 20`,
`numChannels` in [1, 8], `sampleDepth` in [4, 32], `numSamples` within 36
bits); the semantic orderings of section 3 (`minBlockSize ≥ 16`,
`maxBlockSize ≥ minBlockSize`, `maxFrameSize ≥ minFrameSize`,
`sampleRate ≤ 655350`) are not checked.  `write(last)` fails with
`InvalidState`, writing nothing, exactly when these width ranges are
violated, and emits the block otherwise. -/
theorem C4_checkValues_and_write_enforce_width_ranges (si : StreamInfo) :
    (StreamInfo.checkValues si = .ok () ↔ streamInfoCheckedRanges si) ∧
    (∀ last w, ¬ streamInfoCheckedRanges si →
       StreamInfo.write last si w = .error .InvalidState) ∧
    (∀ last w, streamInfoCheckedRanges si →
       ∃ w2, StreamInfo.write last si w = .ok w2) := by
  refine ⟨streamInfo_checkValues_iff si, ?_, ?_⟩
  · intro last w h
    have he := streamInfo_checkValues_error si h
    unfold StreamInfo.write
    rw [he]
    rfl
  · intro last w h
    have hok := (streamInfo_checkValues_iff si).mpr h
    unfold StreamInfo.write
    rw [hok]
    exact streamInfo_writeMd5_ok _ _

/-- C4 witness: the amended theorem applied to the specification scenario 1
stream info, whose widths all check out. -/
theorem C4_witness :
    StreamInfo.checkValues
      { minBlockSize := 4096, maxBlockSize := 4096, minFrameSize := 0, maxFrameSize := 0,
        sampleRate := 44100, numChannels := 2, sampleDepth := 16, numSamples := 0,
        md5Hash := List.replicate 16 0 } = .ok () :=
  (C4_checkValues_and_write_enforce_width_ranges _).1.mpr (by decide)

/-! ### Claim C10 -/

theorem exc_bind_ok {α β : Type} (a : α) (f : α → Except Err β) :
    (Except.ok a : Except Err α) >>= f = f a := rfl

theorem exc_bind_error {α β : Type} (e : Err) (f : α → Except Err β) :
    (Except.error e : Except Err α) >>= f = .error e := rfl

/-- C10: a `FrameInfo` in the fixed-block-size form (`frameIndex ≠ -1`,
`sampleOffset = -1`) satisfies the mutual-exclusion pre-check of
`writeHeader`, but `writeHeader` then UTF-8-encodes `sampleOffset` — which
the `(uint_fast64_t)` cast turns into `2 ^ 64 - 1` — and `writeUtf8Integer`
rejects every such value as not fitting 36 bits with `InvalidArgument`.
Hence `writeHeader` always fails on the fixed-block-size form (possibly
earlier, with `InvalidArgument` from a code-lookup failure), and only
sampleOffset-form headers can ever be serialized. -/
theorem C10_fixed_block_form_never_serializes (fi : FrameInfo) (w : BitOutputStream)
    (h1 : fi.frameIndex ≠ -1) (h2 : fi.sampleOffset = -1) :
    (∃ e, FrameInfo.writeHeader fi w = .error e) ∧
    (∀ w2, FrameInfo.writeUtf8Integer ((fi.sampleOffset % (2 ^ 64 : Int)).toNat) w2 =
       .error .InvalidArgument) := by
  have hW : ∀ w2, FrameInfo.writeUtf8Integer ((fi.sampleOffset % (2 ^ 64 : Int)).toNat) w2 =
      .error .InvalidArgument := by
    intro w2
    rw [h2]
    unfold FrameInfo.writeUtf8Integer
    rw [if_pos (by decide)]
  refine ⟨?_, hW⟩
  rcases hbs : FrameInfo.getBlockSizeCode fi.blockSize with e | bsc
  · exact ⟨e, by simp [FrameInfo.writeHeader, BitOutputStream.writeInt, hbs,
      exc_bind_ok, exc_bind_error]⟩
  · rcases hsr : FrameInfo.getSampleRateCode fi.sampleRate with e | src
    · exact ⟨e, by simp [FrameInfo.writeHeader, BitOutputStream.writeInt, hbs, hsr,
        exc_bind_ok, exc_bind_error]⟩
    · rcases hsd : FrameInfo.getSampleDepthCode fi.sampleDepth with e | sdc
      · exact ⟨e, by simp [FrameInfo.writeHeader, BitOutputStream.writeInt, hbs, hsr, hsd,
          exc_bind_ok, exc_bind_error]⟩
      · refine ⟨.InvalidArgument, ?_⟩
        have hW2 : ∀ w2, FrameInfo.writeUtf8Integer 18446744073709551615 w2 =
            .error .InvalidArgument := by
          intro w2
          unfold FrameInfo.writeUtf8Integer
          rw [if_pos (by decide)]
        simp [FrameInfo.writeHeader, BitOutputStream.writeInt, hbs, hsr, hsd,
          exc_bind_ok, exc_bind_error, h1, h2, hW2]

/-- C10 witness: the theorem applied to a concrete fixed-block-size frame
info. -/
theorem C10_witness :
    ∃ e, FrameInfo.writeHeader
      { frameIndex := 0, sampleOffset := -1, numChannels := 2, channelAssignment := 1,
        blockSize := 512, sampleRate := 44100, sampleDepth := 16, frameSize := -1 }
      freshWriter = .error e :=
  (C10_fixed_block_form_never_serializes _ freshWriter (by decide) (by decide)).1

/-! ### Claim C1: bit-string toolkit -/

theorem natToBits_length (n v : Nat) : (natToBits n v).length = n := by
  induction n generalizing v with
  | zero => rfl
  | succ n ih => simp [natToBits, ih]

theorem natToBits_congr {n x y : Nat} (h : x % 2 ^ n = y % 2 ^ n) :
    natToBits n x = natToBits n y := by
  induction n generalizing x y with
  | zero => rfl
  | succ n ih =>
    have hbit : x.testBit n = y.testBit n := by
      have h1 : (x % 2 ^ (n + 1)).testBit n = (y % 2 ^ (n + 1)).testBit n := by rw [h]
      simpa using h1
    have hmod : x % 2 ^ n = y % 2 ^ n := by
      have hd : (2 : Nat) ^ n ∣ 2 ^ (n + 1) := Nat.pow_dvd_pow 2 (Nat.le_succ n)
      rw [← Nat.mod_mod_of_dvd x hd, ← Nat.mod_mod_of_dvd y hd, h]
    simp [natToBits, hbit, ih hmod]

theorem natToBits_add (u w x : Nat) :
    natToBits (u + w) x = natToBits u (x >>> w) ++ natToBits w x := by
  induction u with
  | zero => simp [natToBits]
  | succ u ih =>
    have h1 : u + 1 + w = (u + w) + 1 := by omega
    rw [h1]
    simp only [natToBits, ih, List.cons_append]
    congr 1
    rw [Nat.testBit_shiftRight, Nat.add_comm w u]

theorem natToBits_one_eq (q : Nat) :
    natToBits (q + 1) 1 = List.replicate q false ++ [true] := by
  induction q with
  | zero => rfl
  | succ q ih =>
    have hb : Nat.testBit 1 (q + 1) = false :=
      Nat.testBit_lt_two_pow (Nat.one_lt_two_pow_iff.mpr (by omega))
    calc natToBits (q + 2) 1 = Nat.testBit 1 (q + 1) :: natToBits (q + 1) 1 := rfl
      _ = false :: (List.replicate q false ++ [true]) := by rw [hb, ih]
      _ = List.replicate (q + 1) false ++ [true] := by
          simp [List.replicate_succ]

theorem shiftLeft_or_eq_add {a k r : Nat} (h : r < 2 ^ k) :
    (a <<< k) ||| r = a * 2 ^ k + r := by
  apply Nat.eq_of_testBit_eq
  intro m
  rw [Nat.testBit_lor, Nat.testBit_shiftLeft]
  rcases Nat.lt_or_ge m k with hmk | hmk
  · have h1 : ¬ m ≥ k := Nat.not_le.mpr hmk
    have h2 : (a * 2 ^ k + r) % 2 ^ k = r := by
      rw [Nat.mul_comm a (2 ^ k), Nat.mul_add_mod, Nat.mod_eq_of_lt h]
    have h3 := Nat.testBit_mod_two_pow (a * 2 ^ k + r) k m
    rw [h2] at h3
    simp [h1, hmk] at h3 ⊢
    exact h3
  · have hdiv : (a * 2 ^ k + r) / 2 ^ m = a / 2 ^ (m - k) := by
      have hm : (2 : Nat) ^ m = 2 ^ k * 2 ^ (m - k) := by
        rw [← Nat.pow_add]
        congr 1
        omega
      rw [hm, ← Nat.div_div_eq_div_mul, Nat.mul_comm a (2 ^ k),
          Nat.mul_add_div (Nat.two_pow_pos k), Nat.div_eq_of_lt h, Nat.add_zero]
    have hr0 : r / 2 ^ m = 0 :=
      Nat.div_eq_of_lt (Nat.lt_of_lt_of_le h (Nat.pow_le_pow_right (by omega) hmk))
    simp only [Nat.testBit_to_div_mod, hdiv, hr0]
    simp [hmk]

theorem natOfBits_foldl_acc (l : List Bool) (a : Nat) :
    l.foldl (fun x b => 2 * x + (if b then 1 else 0)) a =
      a * 2 ^ l.length + natOfBits l := by
  induction l generalizing a with
  | nil => simp [natOfBits]
  | cons b l ih =>
    simp only [List.foldl_cons, List.length_cons, natOfBits]
    rw [ih, ih (2 * 0 + if b then 1 else 0)]
    ring

theorem natOfBits_append (l1 l2 : List Bool) :
    natOfBits (l1 ++ l2) = natOfBits l1 * 2 ^ l2.length + natOfBits l2 := by
  unfold natOfBits
  rw [List.foldl_append, natOfBits_foldl_acc]
  rfl

theorem natOfBits_cons (b : Bool) (l : List Bool) :
    natOfBits (b :: l) = (if b then 1 else 0) * 2 ^ l.length + natOfBits l := by
  unfold natOfBits
  simp only [List.foldl_cons]
  rw [natOfBits_foldl_acc]
  ring_nf
  rfl

theorem natOfBits_lt (l : List Bool) : natOfBits l < 2 ^ l.length := by
  induction l with
  | nil => simp [natOfBits]
  | cons b l ih =>
    rw [natOfBits_cons]
    have hb : (if b then 1 else 0) ≤ 1 := by split <;> omega
    have h1 : (if b then 1 else 0) * 2 ^ l.length ≤ 2 ^ l.length := by
      have := Nat.mul_le_mul_right (2 ^ l.length) hb
      omega
    calc (if b then 1 else 0) * 2 ^ l.length + natOfBits l
        < (if b then 1 else 0) * 2 ^ l.length + 2 ^ l.length := by omega
      _ ≤ 2 ^ l.length + 2 ^ l.length := by omega
      _ = 2 ^ (l.length + 1) := by ring
      _ = 2 ^ (b :: l).length := by simp

theorem natOfBits_natToBits (n v : Nat) : natOfBits (natToBits n v) = v % 2 ^ n := by
  induction n with
  | zero => simp [natToBits, natOfBits, Nat.mod_one]
  | succ n ih =>
    show natOfBits (v.testBit n :: natToBits n v) = v % 2 ^ (n + 1)
    rw [natOfBits_cons, natToBits_length, ih, Nat.mod_pow_succ]
    have h2 : (if v.testBit n then 1 else 0) = v / 2 ^ n % 2 := by
      rw [Nat.testBit_to_div_mod]
      rcases Nat.mod_two_eq_zero_or_one (v / 2 ^ n) with h | h <;> simp [h]
    rw [h2]
    ring

/-! ### Claim C1: slow-path lemmas -/

theorem readUnaryLimited_spec (limit q val : Nat) (tail : List Bool)
    (h : val + q ≤ limit) :
    readUnaryLimited limit val (List.replicate q false ++ true :: tail) =
      .ok (val + q, tail) := by
  induction q generalizing val with
  | zero => simp [readUnaryLimited]
  | succ q ih =>
    have h1 : ¬ limit ≤ val := by omega
    have hstep := ih (val + 1) (by omega)
    rw [show val + 1 + q = val + (q + 1) by omega] at hstep
    calc readUnaryLimited limit val (List.replicate (q + 1) false ++ true :: tail)
        = readUnaryLimited limit val
            (false :: (List.replicate q false ++ true :: tail)) := by
          rw [List.replicate_succ, List.cons_append]
      _ = readUnaryLimited limit (val + 1) (List.replicate q false ++ true :: tail) := by
          simp [readUnaryLimited, h1]
      _ = .ok (val + (q + 1), tail) := hstep

theorem readUintBits_spec (k : Nat) : ∀ (r acc : Nat) (tail : List Bool), r < 2 ^ k →
    readUintBits acc k (natToBits k r ++ tail) = .ok (acc * 2 ^ k + r, tail) := by
  induction k with
  | zero =>
    intro r acc tail hr
    have h0 : r = 0 := by
      have h1 : r < 1 := by simpa using hr
      omega
    subst h0
    simp [natToBits, readUintBits]
  | succ k ih =>
    intro r acc tail hr
    have hmod : natToBits k r = natToBits k (r % 2 ^ k) :=
      natToBits_congr (Nat.mod_mod_of_dvd r dvd_rfl).symm
    have hdivlt : r / 2 ^ k < 2 := by
      have h2 : (2 : Nat) ^ (k + 1) = 2 ^ k * 2 := by ring
      exact (Nat.div_lt_iff_lt_mul (Nat.two_pow_pos k)).mpr (by omega)
    have hbit : (if r.testBit k then 1 else 0) = r / 2 ^ k := by
      rw [Nat.testBit_to_div_mod]
      revert hdivlt
      generalize r / 2 ^ k = d
      intro hd
      have h01 : d = 0 ∨ d = 1 := by omega
      rcases h01 with h | h <;> simp [h]
    have hdm := Nat.div_add_mod r (2 ^ k)
    calc readUintBits acc (k + 1) (natToBits (k + 1) r ++ tail)
        = readUintBits (2 * acc + if r.testBit k then 1 else 0) k
            (natToBits k r ++ tail) := rfl
      _ = readUintBits (2 * acc + if r.testBit k then 1 else 0) k
            (natToBits k (r % 2 ^ k) ++ tail) := by rw [hmod]
      _ = .ok ((2 * acc + if r.testBit k then 1 else 0) * 2 ^ k + r % 2 ^ k, tail) :=
          ih _ _ _ (Nat.mod_lt r (Nat.two_pow_pos k))
      _ = .ok (acc * 2 ^ (k + 1) + r, tail) := by
          congr 2
          calc (2 * acc + if r.testBit k then 1 else 0) * 2 ^ k + r % 2 ^ k
              = acc * 2 ^ (k + 1) + ((r / 2 ^ k) * 2 ^ k + r % 2 ^ k) := by
                rw [hbit]; ring
            _ = acc * 2 ^ (k + 1) + r := by
                rw [Nat.mul_comm (r / 2 ^ k) (2 ^ k), hdm]

/-! ### Claim C1: main theorem -/

theorem riceWrites_mem_spec {k : Nat} {w : Nat × Nat × Int} (hm : w ∈ riceWrites k) :
    ∃ i j, i < riceIterCount k ∧
      j < 2 ^ (RICE_DECODING_TABLE_BITS - ((i >>> k) + 1 + k)) ∧
      w = ((((1 <<< k) ||| (i &&& ((1 <<< k) - 1))) <<<
              (RICE_DECODING_TABLE_BITS - ((i >>> k) + 1 + k))) ||| j,
           ((i >>> k) + 1 + k, riceZigzag i)) := by
  unfold riceWrites at hm
  simp only [List.mem_flatMap, List.mem_map, List.mem_range] at hm
  obtain ⟨i, hi, j, hj, hw⟩ := hm
  exact ⟨i, j, hi, by simpa [Nat.one_shiftLeft] using hj, hw.symm⟩

theorem riceTables_entry_spec {k idx : Nat} (hne : riceConsumed k idx ≠ 0) :
    ∃ i j, i < riceIterCount k ∧
      j < 2 ^ (RICE_DECODING_TABLE_BITS - ((i >>> k) + 1 + k)) ∧
      idx = (((1 <<< k) ||| (i &&& ((1 <<< k) - 1))) <<<
              (RICE_DECODING_TABLE_BITS - ((i >>> k) + 1 + k))) ||| j ∧
      riceConsumed k idx = (i >>> k) + 1 + k ∧
      riceValue k idx = riceZigzag i := by
  have hfind : ∃ w, (riceWrites k).find? (fun w => w.1 == idx) = some w := by
    rcases h : (riceWrites k).find? (fun w => w.1 == idx) with _ | w
    · exfalso
      apply hne
      unfold riceConsumed
      rw [h]
    · exact ⟨w, h⟩
  obtain ⟨w, hf⟩ := hfind
  have hc : riceConsumed k idx = w.2.1 := by unfold riceConsumed; rw [hf]
  have hv : riceValue k idx = w.2.2 := by unfold riceValue; rw [hf]
  have hmem := List.mem_of_find?_eq_some hf
  have heq : w.1 = idx := by simpa using List.find?_some hf
  obtain ⟨i, j, hi, hj, hw⟩ := riceWrites_mem_spec hmem
  subst hw
  exact ⟨i, j, hi, hj, heq.symm, hc, hv⟩

/-- C1: for every Rice parameter `k` with a table (`k ≤ 30`) and every
13-bit index `idx` whose consumed-table entry is nonzero, the fast path —
consuming `consumed` bits and taking `value` from the tables — agrees with
the slow path: running the unary/remainder/zig-zag decoder (with its
`unaryLimit = 2 ^ (53 - k)` guard, which never fires within 13 bits) on the
13 bits of `idx` succeeds, returns exactly the table value, and leaves
exactly the bits beyond `consumed` unread. -/
theorem C1_rice_table_agrees_with_slow_path (k idx : Nat)
    (hk : k ≤ 30) (_hidx : idx < 2 ^ RICE_DECODING_TABLE_BITS)
    (hne : riceConsumed k idx ≠ 0) :
    riceConsumed k idx ≤ RICE_DECODING_TABLE_BITS ∧
    riceSlowDecode k (natToBits RICE_DECODING_TABLE_BITS idx) =
      .ok (riceValue k idx,
           (natToBits RICE_DECODING_TABLE_BITS idx).drop (riceConsumed k idx)) := by
  obtain ⟨i, j, hi, hj, hidx2, hc, hv⟩ := riceTables_entry_spec hne
  simp only [RICE_DECODING_TABLE_BITS] at *
  set q := i >>> k with hq0
  set s := 13 - (q + 1 + k) with hs0
  set r := i &&& ((1 <<< k) - 1) with hr0
  have hk12 : k ≤ 12 := by
    by_contra hgt
    have hzero : riceIterCount k = 0 := by
      unfold riceIterCount
      rw [if_neg (by omega)]
    omega
  have hi2 : i < (13 - k) * 2 ^ k := by
    unfold riceIterCount at hi
    rw [if_pos hk12, Nat.shiftLeft_eq] at hi
    exact hi
  have hq : q = i / 2 ^ k := by rw [hq0, Nat.shiftRight_eq_div_pow]
  have hqlt : q < 13 - k := by
    rw [hq]
    exact (Nat.div_lt_iff_lt_mul (Nat.two_pow_pos k)).mpr hi2
  have hr_eq : r = i % 2 ^ k := by
    rw [hr0, Nat.one_shiftLeft, Nat.and_pow_two_sub_one_eq_mod]
  have hrlt : r < 2 ^ k := by
    rw [hr_eq]
    exact Nat.mod_lt i (Nat.two_pow_pos k)
  have hs : s = 13 - (q + 1 + k) := hs0
  have hsum : q + 1 + (k + s) = 13 := by omega
  have hbits : (1 <<< k) ||| r = 2 ^ k + r := by
    rw [shiftLeft_or_eq_add hrlt, Nat.one_mul]
  have hidx_eq : idx = (2 ^ k + r) * 2 ^ s + j := by
    rw [hidx2, hbits, shiftLeft_or_eq_add hj]
  have hsublt : r * 2 ^ s + j < 2 ^ (k + s) := by
    calc r * 2 ^ s + j < r * 2 ^ s + 2 ^ s := by omega
      _ = (r + 1) * 2 ^ s := by ring
      _ ≤ 2 ^ k * 2 ^ s := Nat.mul_le_mul_right _ (by omega)
      _ = 2 ^ (k + s) := by rw [← Nat.pow_add]
  have hshift1 : idx >>> (k + s) = 1 := by
    rw [Nat.shiftRight_eq_div_pow, hidx_eq,
        show ((2 : Nat) ^ k + r) * 2 ^ s + j = 2 ^ (k + s) * 1 + (r * 2 ^ s + j) by
          rw [Nat.pow_add]; ring,
        Nat.mul_add_div (Nat.two_pow_pos (k + s)), Nat.div_eq_of_lt hsublt]
  have hshifts : idx >>> s = 2 ^ k + r := by
    rw [Nat.shiftRight_eq_div_pow, hidx_eq,
        show ((2 : Nat) ^ k + r) * 2 ^ s + j = 2 ^ s * (2 ^ k + r) + j by ring,
        Nat.mul_add_div (Nat.two_pow_pos s), Nat.div_eq_of_lt hj, Nat.add_zero]
  have hkr : natToBits k (idx >>> s) = natToBits k r := by
    rw [hshifts]
    exact natToBits_congr (Nat.add_mod_left (2 ^ k) r)
  have hsplit : natToBits 13 idx =
      List.replicate q false ++ true :: (natToBits k r ++ natToBits s idx) := by
    calc natToBits 13 idx = natToBits (q + 1 + (k + s)) idx := by rw [hsum]
      _ = natToBits (q + 1) (idx >>> (k + s)) ++ natToBits (k + s) idx :=
          natToBits_add _ _ _
      _ = natToBits (q + 1) 1 ++ (natToBits k (idx >>> s) ++ natToBits s idx) := by
          rw [hshift1, natToBits_add k s idx]
      _ = (List.replicate q false ++ [true]) ++ (natToBits k r ++ natToBits s idx) := by
          rw [natToBits_one_eq, hkr]
      _ = List.replicate q false ++ true :: (natToBits k r ++ natToBits s idx) := by
          simp
  have hlim : q ≤ 1 <<< (53 - k) := by
    have h4 : (13 : Nat) ≤ 2 ^ (53 - k) := by
      calc (13 : Nat) ≤ 2 ^ 4 := by norm_num
        _ ≤ 2 ^ (53 - k) := Nat.pow_le_pow_right (by omega) (by omega)
    rw [Nat.one_shiftLeft]
    omega
  have hu := readUnaryLimited_spec (1 <<< (53 - k)) q 0
    (natToBits k r ++ natToBits s idx) (by omega)
  rw [Nat.zero_add] at hu
  have hb := readUintBits_spec k r 0 (natToBits s idx) hrlt
  rw [Nat.zero_mul, Nat.zero_add] at hb
  have hqr : (q <<< k) ||| r = i := by
    rw [shiftLeft_or_eq_add hrlt, hq, hr_eq, Nat.mul_comm, Nat.div_add_mod]
  have hdrop : (natToBits 13 idx).drop (q + 1 + k) = natToBits s idx := by
    rw [hsplit,
        show List.replicate q false ++ true :: (natToBits k r ++ natToBits s idx) =
          (List.replicate q false ++ true :: natToBits k r) ++ natToBits s idx by simp,
        List.drop_left' (by simp [natToBits_length]; omega)]
  constructor
  · omega
  · rw [hc, hv, hdrop]
    unfold riceSlowDecode
    rw [hsplit]
    simp only [hu, hb, hqr]

/-- C1 witness: the theorem applied at parameter 0 and table index 4096
(bit pattern 1 followed by twelve zeros: unary quotient 0, no remainder
bits, consumed 1, value zig-zag 0 = 0). -/
theorem C1_witness :
    ((0 : Nat) ≤ 30 ∧ 4096 < 2 ^ RICE_DECODING_TABLE_BITS ∧ riceConsumed 0 4096 ≠ 0) ∧
    riceSlowDecode 0 (natToBits RICE_DECODING_TABLE_BITS 4096) =
      .ok (riceValue 0 4096,
           (natToBits RICE_DECODING_TABLE_BITS 4096).drop (riceConsumed 0 4096)) :=
  ⟨⟨by decide, by decide, by decide⟩,
   (C1_rice_table_agrees_with_slow_path 0 4096 (by decide) (by decide) (by decide)).2⟩

/-! ### Claim C5: writer-side bit-string semantics -/

/-- The bit string a `BitOutputStream` has committed so far: the bits of the
bytes already written to the underlying stream followed by the
`bitBufferLen` buffered bits. -/
def writerBits (w : BitOutputStream) : List Bool :=
  bitsOfBytes w.outBytes ++ natToBits w.bitBufferLen w.bitBuffer

theorem bitsOfBytes_nil : bitsOfBytes [] = [] := rfl

theorem bitsOfBytes_append (a b : List Nat) :
    bitsOfBytes (a ++ b) = bitsOfBytes a ++ bitsOfBytes b :=
  List.flatMap_append a b _

theorem bitsOfBytes_cons (x : Nat) (a : List Nat) :
    bitsOfBytes (x :: a) = natToBits 8 x ++ bitsOfBytes a :=
  List.flatMap_cons x a _

theorem bitsOfBytes_length (a : List Nat) : (bitsOfBytes a).length = 8 * a.length := by
  induction a with
  | nil => rfl
  | cons x a ih =>
    rw [bitsOfBytes_cons, List.length_append, natToBits_length, ih, List.length_cons]
    ring

theorem or_mod_pow (a b k j : Nat) (h : j ≤ k) :
    ((a % 2 ^ k) ||| b) % 2 ^ j = (a ||| b) % 2 ^ j := by
  apply Nat.eq_of_testBit_eq
  intro i
  simp only [Nat.testBit_mod_two_pow, Nat.testBit_lor]
  by_cases hij : i < j
  · have hik : i < k := lt_of_lt_of_le hij h
    simp [hij, hik, Nat.testBit_mod_two_pow]
  · simp [hij]

/-- Pushing `n` fresh low bits into a 64-bit buffer holding `m` valid bits
appends those bits to the buffered bit string. -/
theorem natToBits_push (m n buf low : Nat) (hlow : low < 2 ^ n) (hmn : m + n ≤ 64) :
    natToBits (m + n) ((((buf <<< n) % 2 ^ 64) ||| low) % 2 ^ 64) =
      natToBits m buf ++ natToBits n low := by
  have hdvd : (2:Nat) ^ (m + n) ∣ 2 ^ 64 := Nat.pow_dvd_pow 2 hmn
  have h1 : ((((buf <<< n) % 2 ^ 64) ||| low) % 2 ^ 64) % 2 ^ (m + n)
      = (buf * 2 ^ n + low) % 2 ^ (m + n) := by
    rw [Nat.mod_mod_of_dvd _ hdvd, or_mod_pow _ _ _ _ hmn, shiftLeft_or_eq_add hlow]
  rw [natToBits_congr h1, natToBits_add m n (buf * 2 ^ n + low)]
  have h2 : (buf * 2 ^ n + low) >>> n = buf := by
    rw [Nat.shiftRight_eq_div_pow, Nat.mul_comm buf (2 ^ n),
        Nat.mul_add_div (Nat.two_pow_pos n), Nat.div_eq_of_lt hlow, Nat.add_zero]
  have h3 : natToBits n (buf * 2 ^ n + low) = natToBits n low := by
    apply natToBits_congr
    rw [Nat.mul_comm buf (2 ^ n), Nat.mul_add_mod]
  rw [h2, h3]

theorem natToBits_split8 (len buf : Nat) (h : 8 ≤ len) :
    natToBits len buf = natToBits 8 (buf >>> (len - 8)) ++ natToBits (len - 8) buf := by
  have h2 := natToBits_add 8 (len - 8) buf
  rw [show 8 + (len - 8) = len from by omega] at h2
  exact h2

/-- One pass of `BitOutputStream::flush` empties the bit buffer down to its
sub-byte remainder without changing the committed bit string, and keeps all
output bytes in range. -/
theorem flushLoop_bits (fuel : Nat) : ∀ w : BitOutputStream,
    w.bitBufferLen ≤ 8 * fuel + 7 → (∀ b ∈ w.outBytes, b < 256) →
    (BitOutputStream.flushLoop fuel w).bitBufferLen = w.bitBufferLen % 8 ∧
    writerBits (BitOutputStream.flushLoop fuel w) = writerBits w ∧
    (∀ b ∈ (BitOutputStream.flushLoop fuel w).outBytes, b < 256) := by
  induction fuel with
  | zero =>
    intro w hfuel hb
    have h0 : BitOutputStream.flushLoop 0 w = w := rfl
    rw [h0]
    exact ⟨(Nat.mod_eq_of_lt (by omega)).symm, rfl, hb⟩
  | succ fuel ih =>
    intro w hfuel hb
    by_cases h8 : w.bitBufferLen ≥ 8
    · have hstep : BitOutputStream.flushLoop (fuel + 1) w =
          BitOutputStream.flushLoop fuel
            { w with bitBufferLen := w.bitBufferLen - 8,
                     outBytes := w.outBytes ++ [(w.bitBuffer >>> (w.bitBufferLen - 8)) &&& 255],
                     byteCount := w.byteCount + 1,
                     crc8 := writerCrc8Byte w.crc8 ((w.bitBuffer >>> (w.bitBufferLen - 8)) &&& 255),
                     crc16 := writerCrc16Byte w.crc16
                       ((w.bitBuffer >>> (w.bitBufferLen - 8)) &&& 255) } := by
        simp only [BitOutputStream.flushLoop]
        rw [if_pos h8]
      have hble : (w.bitBuffer >>> (w.bitBufferLen - 8)) &&& 255 ≤ 255 := Nat.and_le_right
      have hb2 : ∀ b ∈ w.outBytes ++ [(w.bitBuffer >>> (w.bitBufferLen - 8)) &&& 255],
          b < 256 := by
        intro b hbm
        rcases List.mem_append.mp hbm with h | h
        · exact hb b h
        · have := List.mem_singleton.mp h
          omega
      obtain ⟨ih1, ih2, ih3⟩ := ih
        { w with bitBufferLen := w.bitBufferLen - 8,
                 outBytes := w.outBytes ++ [(w.bitBuffer >>> (w.bitBufferLen - 8)) &&& 255],
                 byteCount := w.byteCount + 1,
                 crc8 := writerCrc8Byte w.crc8 ((w.bitBuffer >>> (w.bitBufferLen - 8)) &&& 255),
                 crc16 := writerCrc16Byte w.crc16
                   ((w.bitBuffer >>> (w.bitBufferLen - 8)) &&& 255) }
        (by show w.bitBufferLen - 8 ≤ 8 * fuel + 7; omega) hb2
      refine ⟨?_, ?_, ?_⟩
      · rw [hstep, ih1]
        show (w.bitBufferLen - 8) % 8 = w.bitBufferLen % 8
        omega
      · rw [hstep, ih2]
        have hby : natToBits 8 ((w.bitBuffer >>> (w.bitBufferLen - 8)) &&& 255) =
            natToBits 8 (w.bitBuffer >>> (w.bitBufferLen - 8)) := by
          apply natToBits_congr
          rw [show (255:Nat) = 2 ^ 8 - 1 by norm_num, Nat.and_pow_two_sub_one_eq_mod,
              Nat.mod_mod_of_dvd _ dvd_rfl]
        unfold writerBits
        simp only [bitsOfBytes_append, bitsOfBytes_cons, bitsOfBytes_nil, hby]
        rw [natToBits_split8 w.bitBufferLen w.bitBuffer h8]
        simp [List.append_assoc]
      · rw [hstep]
        exact ih3
    · have hstep : BitOutputStream.flushLoop (fuel + 1) w = w := by
        simp only [BitOutputStream.flushLoop]
        rw [if_neg h8]
      rw [hstep]
      exact ⟨(Nat.mod_eq_of_lt (by omega)).symm, rfl, hb⟩

theorem flush_spec (w : BitOutputStream) (hb : ∀ b ∈ w.outBytes, b < 256) :
    w.flush.bitBufferLen = w.bitBufferLen % 8 ∧
    writerBits w.flush = writerBits w ∧
    (∀ b ∈ w.flush.outBytes, b < 256) :=
  flushLoop_bits w.bitBufferLen w (by omega) hb

theorem toNat_emod_two_pow_lt (v : Int) (n : Nat) : (v % ((2:Int) ^ n)).toNat < 2 ^ n := by
  have h3 : ((2:Int) ^ n) = ((2 ^ n : Nat) : Int) := by push_cast; ring
  have hpos : (0:Int) < ((2 ^ n : Nat) : Int) := by positivity
  have h1 := Int.emod_nonneg v (by omega : ((2 ^ n : Nat) : Int) ≠ 0)
  have h2 := Int.emod_lt_of_pos v hpos
  rw [h3]
  omega

theorem toNat_natCast_emod (x n : Nat) : ((x : Int) % ((2:Int) ^ n)).toNat = x % 2 ^ n := by
  have h2 : ((2:Int) ^ n) = ((2 ^ n : Nat) : Int) := by push_cast; ring
  rw [h2, ← Int.natCast_mod, Int.toNat_natCast]

theorem toNat_natCast_emod_of_lt (x n : Nat) (h : x < 2 ^ n) :
    ((x : Int) % ((2:Int) ^ n)).toNat = x := by
  rw [toNat_natCast_emod, Nat.mod_eq_of_lt h]

theorem toNat_sub_one_emod (x n : Nat) (h1 : 1 ≤ x) (h2 : x ≤ 2 ^ n) :
    (((x : Int) - 1) % ((2:Int) ^ n)).toNat = x - 1 := by
  have h3 : ((2:Int) ^ n) = ((2 ^ n : Nat) : Int) := by push_cast; ring
  rw [h3, Int.emod_eq_of_lt (by omega) (by omega)]
  omega

/-- `BitOutputStream::writeInt` succeeds for widths up to 32 and appends the
low `n` bits of `val` to the committed bit string. -/
theorem writeInt_spec (n : Nat) (v : Int) (w : BitOutputStream)
    (hn : n ≤ 32) (hb : ∀ b ∈ w.outBytes, b < 256) :
    ∃ w2, w.writeInt n v = .ok w2 ∧
      (∀ b ∈ w2.outBytes, b < 256) ∧
      writerBits w2 = writerBits w ++ natToBits n (v % ((2:Int) ^ n)).toNat := by
  have hlow := toNat_emod_two_pow_lt v n
  by_cases hf : w.bitBufferLen + n > 64
  · obtain ⟨hf1, hf2, hf3⟩ := flush_spec w hb
    have heval : w.writeInt n v = .ok { w.flush with
        bitBuffer := (((w.flush.bitBuffer <<< n) % 2 ^ 64) ||| (v % ((2:Int) ^ n)).toNat) % 2 ^ 64,
        bitBufferLen := w.flush.bitBufferLen + n } := by
      unfold BitOutputStream.writeInt
      rw [if_neg (by omega), if_pos hf]
    refine ⟨_, heval, hf3, ?_⟩
    unfold writerBits
    simp only []
    rw [natToBits_push _ _ _ _ hlow (by omega), ← List.append_assoc]
    rw [show bitsOfBytes w.flush.outBytes ++ natToBits w.flush.bitBufferLen w.flush.bitBuffer
          = writerBits w.flush from rfl, hf2]
    rfl
  · have heval : w.writeInt n v = .ok { w with
        bitBuffer := (((w.bitBuffer <<< n) % 2 ^ 64) ||| (v % ((2:Int) ^ n)).toNat) % 2 ^ 64,
        bitBufferLen := w.bitBufferLen + n } := by
      unfold BitOutputStream.writeInt
      rw [if_neg (by omega), if_neg hf]
    refine ⟨_, heval, hb, ?_⟩
    unfold writerBits
    simp only []
    rw [natToBits_push _ _ _ _ hlow (by omega), ← List.append_assoc]

/-- The md5 loop of `StreamInfo::write` appends the bits of the 16 hash
bytes. -/
theorem writeMd5_spec (ms : List Nat) : ∀ w : BitOutputStream,
    (∀ b ∈ w.outBytes, b < 256) → (∀ b ∈ ms, b < 256) →
    ∃ w2, StreamInfo.writeMd5 ms w = .ok w2 ∧
      (∀ b ∈ w2.outBytes, b < 256) ∧
      writerBits w2 = writerBits w ++ bitsOfBytes ms := by
  induction ms with
  | nil =>
    intro w h2 _
    exact ⟨w, rfl, h2, by simp [bitsOfBytes_nil]⟩
  | cons x ms ih =>
    intro w h2 h3
    have hx : x < 256 := h3 x (by simp)
    obtain ⟨w1, hw1, hb1, hbits1⟩ := writeInt_spec 8 (x : Int) w (by omega) h2
    obtain ⟨w2, hw2, hb2, hbits2⟩ := ih w1 hb1 (fun b hbm => h3 b (by simp [hbm]))
    refine ⟨w2, ?_, hb2, ?_⟩
    · simp only [StreamInfo.writeMd5]
      rw [hw1, exc_bind_ok]
      exact hw2
    · rw [hbits2, hbits1, bitsOfBytes_cons,
          toNat_natCast_emod_of_lt x 8 (by omega), List.append_assoc]

/-! ### Claim C5: the bit string written by `StreamInfo::write` -/

/-- The exact bit string `StreamInfo::write(last)` produces: the metadata
block header (isLast flag, type 0, length 34) followed by the 34-byte
payload fields in order. -/
def siBits (last : Bool) (si : StreamInfo) : List Bool :=
  natToBits 1 (if last then 1 else 0) ++ natToBits 7 0 ++ natToBits 24 34 ++
  natToBits 16 si.minBlockSize ++ natToBits 16 si.maxBlockSize ++
  natToBits 24 si.minFrameSize ++ natToBits 24 si.maxFrameSize ++
  natToBits 20 si.sampleRate ++ natToBits 3 (si.numChannels - 1) ++
  natToBits 5 (si.sampleDepth - 1) ++ natToBits 18 (si.numSamples >>> 18) ++
  natToBits 18 si.numSamples ++ bitsOfBytes si.md5Hash

theorem streamInfo_write_bits (last : Bool) (si : StreamInfo)
    (h : streamInfoCheckedRanges si) (hmd5b : ∀ b ∈ si.md5Hash, b < 256) :
    ∃ w2, StreamInfo.write last si freshWriter = .ok w2 ∧
      (∀ b ∈ w2.outBytes, b < 256) ∧
      writerBits w2 = siBits last si := by
  have hok : si.checkValues = .ok () := (streamInfo_checkValues_iff si).mpr h
  obtain ⟨k1, k2, k3, k4, k5, k6, k7, k8, k9, k10, k11⟩ := h
  have hfb : ∀ b ∈ freshWriter.outBytes, b < 256 := by
    intro b hb
    simp [freshWriter] at hb
  obtain ⟨w1, e1, b1, s1⟩ :=
    writeInt_spec 1 (if last then (1:Int) else 0) freshWriter (by omega) hfb
  obtain ⟨w2, e2, b2, s2⟩ := writeInt_spec 7 0 w1 (by omega) b1
  obtain ⟨w3, e3, b3, s3⟩ := writeInt_spec 24 34 w2 (by omega) b2
  obtain ⟨w4, e4, b4, s4⟩ := writeInt_spec 16 (si.minBlockSize : Int) w3 (by omega) b3
  obtain ⟨w5, e5, b5, s5⟩ := writeInt_spec 16 (si.maxBlockSize : Int) w4 (by omega) b4
  obtain ⟨w6, e6, b6, s6⟩ := writeInt_spec 24 (si.minFrameSize : Int) w5 (by omega) b5
  obtain ⟨w7, e7, b7, s7⟩ := writeInt_spec 24 (si.maxFrameSize : Int) w6 (by omega) b6
  obtain ⟨w8, e8, b8, s8⟩ := writeInt_spec 20 (si.sampleRate : Int) w7 (by omega) b7
  obtain ⟨w9, e9, b9, s9⟩ := writeInt_spec 3 ((si.numChannels : Int) - 1) w8 (by omega) b8
  obtain ⟨w10, e10, b10, s10⟩ := writeInt_spec 5 ((si.sampleDepth : Int) - 1) w9 (by omega) b9
  obtain ⟨w11, e11, b11, s11⟩ :=
    writeInt_spec 18 ((si.numSamples >>> 18 : Nat) : Int) w10 (by omega) b10
  obtain ⟨w12, e12, b12, s12⟩ :=
    writeInt_spec 18 ((si.numSamples >>> 0 : Nat) : Int) w11 (by omega) b11
  obtain ⟨w13, e13, b13, s13⟩ := writeMd5_spec si.md5Hash w12 b12 hmd5b
  refine ⟨w13, ?_, b13, ?_⟩
  · unfold StreamInfo.write
    simp only [hok, e1, e2, e3, e4, e5, e6, e7, e8, e9, e10, e11, e12, exc_bind_ok]
    exact e13
  · have hns18 : si.numSamples >>> 18 < 2 ^ 18 := by
      rw [Nat.shiftRight_eq_div_pow]
      exact (Nat.div_lt_iff_lt_mul (Nat.two_pow_pos 18)).mpr (by omega)
    have hc1 : ((if last then (1:Int) else 0) % (2:Int) ^ 1).toNat =
        (if last then 1 else 0 : Nat) := by
      cases last <;> decide
    rw [s13, s12, s11, s10, s9, s8, s7, s6, s5, s4, s3, s2, s1]
    rw [show writerBits freshWriter = [] from rfl]
    unfold siBits
    rw [hc1,
        show ((0:Int) % (2:Int) ^ 7).toNat = 0 from by decide,
        show ((34:Int) % (2:Int) ^ 24).toNat = 34 from by decide,
        toNat_natCast_emod_of_lt si.minBlockSize 16 k1,
        toNat_natCast_emod_of_lt si.maxBlockSize 16 k2,
        toNat_natCast_emod_of_lt si.minFrameSize 24 k3,
        toNat_natCast_emod_of_lt si.maxFrameSize 24 k4,
        toNat_natCast_emod_of_lt si.sampleRate 20 k6,
        toNat_sub_one_emod si.numChannels 3 k7 (by omega),
        toNat_sub_one_emod si.sampleDepth 5 (by omega) (by omega),
        toNat_natCast_emod_of_lt (si.numSamples >>> 18) 18 hns18,
        Nat.shiftRight_zero, toNat_natCast_emod si.numSamples 18,
        natToBits_congr (Nat.mod_mod_of_dvd si.numSamples dvd_rfl)]
    simp only [List.nil_append, List.append_assoc]

/-! ### Claim C5: sliceVal toolkit -/

theorem sliceVal_lt (bs : List Bool) (c n : Nat) : sliceVal bs c n < 2 ^ n := by
  unfold sliceVal
  have h := natOfBits_lt ((bs.drop c).take n)
  have hlen : ((bs.drop c).take n).length ≤ n := by
    rw [List.length_take]
    omega
  exact lt_of_lt_of_le h (Nat.pow_le_pow_right (by omega) hlen)

theorem sliceVal_split (bs : List Bool) (c n1 n2 : Nat) (h : c + n1 + n2 ≤ bs.length) :
    sliceVal bs c (n1 + n2) = sliceVal bs c n1 * 2 ^ n2 + sliceVal bs (c + n1) n2 := by
  unfold sliceVal
  rw [List.take_add, natOfBits_append, List.drop_drop]
  have hlen : ((bs.drop (c + n1)).take n2).length = n2 := by
    rw [List.length_take, List.length_drop]
    omega
  rw [hlen]

theorem sliceVal_append_right (pre suf : List Bool) (c m : Nat) :
    sliceVal (pre ++ suf) (pre.length + c) m = sliceVal suf c m := by
  unfold sliceVal
  congr 1
  rw [← List.drop_drop, List.drop_left]

theorem sliceVal_head (n v : Nat) (suf : List Bool) :
    sliceVal (natToBits n v ++ suf) 0 n = v % 2 ^ n := by
  unfold sliceVal
  rw [List.drop_zero, List.take_left' (natToBits_length n v), natOfBits_natToBits]

theorem sliceVal_byte (D : List Nat) (hD : ∀ b ∈ D, b < 256) :
    ∀ i, i < D.length → sliceVal (bitsOfBytes D) (8 * i) 8 = D.getD i 0 := by
  induction D with
  | nil =>
    intro i hi
    simp at hi
  | cons d D ih =>
    intro i hi
    cases i with
    | zero =>
      rw [bitsOfBytes_cons, show 8 * 0 = 0 from rfl, sliceVal_head]
      have hd : d < 256 := hD d (by simp)
      rw [Nat.mod_eq_of_lt (show d < 2 ^ 8 from by omega)]
      rfl
    | succ i =>
      rw [bitsOfBytes_cons,
          show 8 * (i + 1) = (natToBits 8 d).length + 8 * i from by rw [natToBits_length]; ring,
          sliceVal_append_right,
          ih (fun b hb => hD b (by simp [hb])) i (by simp at hi; omega)]
      rfl

/-! ### Claim C5: reader-side invariant over the loaded byte array -/

/-- The state of an `AbstractFlacLowLevelInput` over a `ByteArrayFlacInput`
of at most one buffer load (`D.length ≤ 4096`), after the single refill has
happened and `c` bits have been consumed: the whole array is in the byte
buffer and the bit buffer holds exactly the slice of the source bit string
between `c` and the byte boundary `8 * byteBufferIndex`. -/
def ReaderLoaded (D : List Nat) (c : Nat) (r : ByteArrayFlacInput) : Prop :=
  r.data = D ∧ r.offset = D.length ∧ r.byteBuffer = D ∧
  r.byteBufferLen = (D.length : Int) ∧ r.byteBufferIndex ≤ D.length ∧
  r.bitBufferLen ≤ 64 ∧ c + r.bitBufferLen = 8 * r.byteBufferIndex ∧
  r.bitBuffer % 2 ^ r.bitBufferLen = sliceVal (bitsOfBytes D) c r.bitBufferLen

/-- A reader either still fresh (nothing pulled yet) or loaded. -/
def ReaderSt (D : List Nat) (c : Nat) (r : ByteArrayFlacInput) : Prop :=
  (c = 0 ∧ r = freshReader D) ∨ ReaderLoaded D c r

theorem readUnderlying_loaded (r : ByteArrayFlacInput)
    (h : (r.byteBufferIndex : Int) < r.byteBufferLen) :
    r.readUnderlying = (some ((r.byteBuffer.getD r.byteBufferIndex 0) &&& 255),
                        { r with byteBufferIndex := r.byteBufferIndex + 1 }) := by
  unfold ByteArrayFlacInput.readUnderlying
  rw [if_neg (by omega)]

theorem readUnderlying_fresh (D : List Nat) (h1 : 1 ≤ D.length) (h2 : D.length ≤ 4096) :
    (freshReader D).readUnderlying =
      (some ((D.getD 0 0) &&& 255),
       { data := D, offset := D.length, byteBufferStartPos := 0, byteBuffer := D,
         byteBufferLen := (D.length : Int), byteBufferIndex := 1, bitBuffer := 0,
         bitBufferLen := 0, crc8 := 0, crc16 := 0, crcStartIndex := 0 }) := by
  have hmin : D.length ⊓ 4096 = D.length := by omega
  have hn0 : ¬ (D.length = 0) := by omega
  have hpos : ¬ ((D.length : Int) ≤ 0) := by omega
  simp only [ByteArrayFlacInput.readUnderlying, freshReader, ByteArrayFlacInput.updateCrcs]
  norm_num [hmin, hn0, hpos, h2, List.range'_zero, List.drop_zero, List.take_length]

theorem mul_mod_shift (buf b len : Nat) (hb : b < 2 ^ 8) :
    (buf * 2 ^ 8 + b) % 2 ^ (len + 8) = (buf % 2 ^ len) * 2 ^ 8 + b := by
  obtain ⟨q, W, hW, rfl⟩ : ∃ q W, W < 2 ^ len ∧ buf = 2 ^ len * q + W :=
    ⟨buf / 2 ^ len, buf % 2 ^ len, Nat.mod_lt _ (Nat.two_pow_pos len),
     (Nat.div_add_mod _ _).symm⟩
  have hWmod : (2 ^ len * q + W) % 2 ^ len = W := by
    rw [Nat.mul_add_mod, Nat.mod_eq_of_lt hW]
  rw [hWmod,
      show (2 ^ len * q + W) * 2 ^ 8 + b = 2 ^ (len + 8) * q + (W * 2 ^ 8 + b) from by
        rw [pow_add]; ring,
      Nat.mul_add_mod]
  apply Nat.mod_eq_of_lt
  have h1 : (W + 1) * 2 ^ 8 ≤ 2 ^ len * 2 ^ 8 := Nat.mul_le_mul_right _ (by omega)
  rw [pow_add]
  omega

theorem extract_high (buf len2 n X Y : Nat) (hX : X < 2 ^ n) (hY : Y < 2 ^ len2)
    (hmod : buf % 2 ^ (len2 + n) = X * 2 ^ len2 + Y) :
    (buf >>> len2) % 2 ^ n = X := by
  obtain ⟨q, hq⟩ : ∃ q, buf = 2 ^ (len2 + n) * q + (X * 2 ^ len2 + Y) :=
    ⟨buf / 2 ^ (len2 + n), by rw [← hmod]; exact (Nat.div_add_mod _ _).symm⟩
  subst hq
  rw [Nat.shiftRight_eq_div_pow,
      show 2 ^ (len2 + n) * q + (X * 2 ^ len2 + Y) = 2 ^ len2 * (2 ^ n * q + X) + Y from by
        rw [pow_add]; ring,
      Nat.mul_add_div (Nat.two_pow_pos len2), Nat.div_eq_of_lt hY, Nat.add_zero,
      Nat.mul_add_mod, Nat.mod_eq_of_lt hX]

/-- Pulling one byte from a reader that still has source bits left lands in
the loaded state with eight more bits in the window. -/
theorem readStep_spec (D : List Nat) (hD : ∀ b ∈ D, b < 256) (hlen : D.length ≤ 4096)
    (c : Nat) (r : ByteArrayFlacInput) (hst : ReaderSt D c r)
    (hroom : c + r.bitBufferLen < 8 * D.length) (hbl : r.bitBufferLen ≤ 56) :
    ∃ b r2, r.readUnderlying = (some b, r2) ∧
      r2.bitBufferLen = r.bitBufferLen ∧
      ReaderLoaded D c { r2 with
        bitBuffer := ((r2.bitBuffer <<< 8) ||| b) % 2 ^ 64,
        bitBufferLen := r2.bitBufferLen + 8 } := by
  rcases hst with ⟨hc0, hfr⟩ | hld
  · subst hfr
    subst hc0
    have hD1 : 1 ≤ D.length := by
      by_contra hcon
      simp [freshReader] at hroom
      omega
    have hd0 : D.getD 0 0 < 256 := by
      rw [List.getD_eq_getElem D 0 (by omega)]
      exact hD _ (List.getElem_mem _)
    refine ⟨(D.getD 0 0) &&& 255, _, readUnderlying_fresh D hD1 hlen, rfl, ?_⟩
    have hband : (D.getD 0 0) &&& 255 = D.getD 0 0 := by
      rw [show (255:Nat) = 2 ^ 8 - 1 from by norm_num, Nat.and_pow_two_sub_one_eq_mod,
          Nat.mod_eq_of_lt (by omega : D.getD 0 0 < 2 ^ 8)]
    refine ⟨rfl, rfl, rfl, rfl, by show 1 ≤ D.length; omega, by show 0 + 8 ≤ 64; omega,
            by show 0 + (0 + 8) = 8 * 1; omega, ?_⟩
    show ((0 <<< 8) ||| ((D.getD 0 0) &&& 255)) % 2 ^ 64 % 2 ^ (0 + 8) =
      sliceVal (bitsOfBytes D) 0 (0 + 8)
    rw [Nat.zero_shiftLeft, Nat.zero_or, hband,
        Nat.mod_eq_of_lt (by omega : D.getD 0 0 < 2 ^ 64),
        Nat.mod_eq_of_lt (by omega : D.getD 0 0 < 2 ^ (0 + 8)),
        show (0:Nat) + 8 = 8 from rfl, show (0:Nat) = 8 * 0 from rfl,
        sliceVal_byte D hD 0 (by omega)]
  · obtain ⟨hdata, hoff, hbuf, hblen, hidx, hbl64, hcl, hwin⟩ := hld
    have hidxlt : r.byteBufferIndex < D.length := by omega
    have hred := readUnderlying_loaded r (by rw [hblen]; omega)
    have hbyte : r.byteBuffer.getD r.byteBufferIndex 0 = D.getD r.byteBufferIndex 0 := by
      rw [hbuf]
    have hd0 : D.getD r.byteBufferIndex 0 < 256 := by
      rw [List.getD_eq_getElem D _ hidxlt]
      exact hD _ (List.getElem_mem _)
    have hband : (r.byteBuffer.getD r.byteBufferIndex 0) &&& 255 =
        D.getD r.byteBufferIndex 0 := by
      rw [hbyte, show (255:Nat) = 2 ^ 8 - 1 from by norm_num,
          Nat.and_pow_two_sub_one_eq_mod,
          Nat.mod_eq_of_lt (by omega : D.getD r.byteBufferIndex 0 < 2 ^ 8)]
    refine ⟨(r.byteBuffer.getD r.byteBufferIndex 0) &&& 255, _, hred, rfl,
            hdata, hoff, hbuf, hblen, by show r.byteBufferIndex + 1 ≤ D.length; omega,
            by show r.bitBufferLen + 8 ≤ 64; omega,
            by show c + (r.bitBufferLen + 8) = 8 * (r.byteBufferIndex + 1); omega, ?_⟩
    show ((r.bitBuffer <<< 8) ||| ((r.byteBuffer.getD r.byteBufferIndex 0) &&& 255)) % 2 ^ 64
        % 2 ^ (r.bitBufferLen + 8) = sliceVal (bitsOfBytes D) c (r.bitBufferLen + 8)
    have hdvd : (2:Nat) ^ (r.bitBufferLen + 8) ∣ 2 ^ 64 := Nat.pow_dvd_pow 2 (by omega)
    rw [hband, Nat.mod_mod_of_dvd _ hdvd,
        shiftLeft_or_eq_add (by omega : D.getD r.byteBufferIndex 0 < 2 ^ 8),
        mul_mod_shift _ _ _ (by omega : D.getD r.byteBufferIndex 0 < 2 ^ 8), hwin,
        sliceVal_split (bitsOfBytes D) c r.bitBufferLen 8
          (by rw [bitsOfBytes_length]; omega),
        show c + r.bitBufferLen = 8 * r.byteBufferIndex from hcl,
        sliceVal_byte D hD r.byteBufferIndex hidxlt]

/-- The refill loop of `readUint` reaches the loaded state with at least `n`
bits windowed, without consuming past `c`. -/
theorem readUintLoop_spec (D : List Nat) (hD : ∀ b ∈ D, b < 256) (hlen : D.length ≤ 4096)
    (n : Nat) (hn1 : 1 ≤ n) (hn : n ≤ 32) (fuel : Nat) :
    ∀ (c : Nat) (r : ByteArrayFlacInput), ReaderSt D c r →
    c + n ≤ 8 * D.length → n ≤ r.bitBufferLen + 8 * fuel →
    ∃ r2, ByteArrayFlacInput.readUintLoop n fuel r = .ok r2 ∧
      ReaderLoaded D c r2 ∧ n ≤ r2.bitBufferLen := by
  induction fuel with
  | zero =>
    intro c r hst hcn hfuel
    have hl : n ≤ r.bitBufferLen := by omega
    rcases hst with ⟨hc0, hfr⟩ | hld
    · subst hfr
      simp [freshReader] at hl
      omega
    · exact ⟨r, rfl, hld, hl⟩
  | succ fuel ih =>
    intro c r hst hcn hfuel
    by_cases hlt : r.bitBufferLen < n
    · obtain ⟨b, r2, hru, hlen2, hld⟩ := readStep_spec D hD hlen c r hst (by omega) (by omega)
      have hstep : ByteArrayFlacInput.readUintLoop n (fuel + 1) r =
          ByteArrayFlacInput.readUintLoop n fuel
            { r2 with bitBuffer := ((r2.bitBuffer <<< 8) ||| b) % 2 ^ 64,
                      bitBufferLen := r2.bitBufferLen + 8 } := by
        simp only [ByteArrayFlacInput.readUintLoop]
        rw [if_pos hlt, hru]
      obtain ⟨r3, hr3, hld3, hl3⟩ := ih c _ (Or.inr hld) hcn
        (by show n ≤ r2.bitBufferLen + 8 + 8 * fuel; omega)
      exact ⟨r3, by rw [hstep]; exact hr3, hld3, hl3⟩
    · have hstep : ByteArrayFlacInput.readUintLoop n (fuel + 1) r = .ok r := by
        simp only [ByteArrayFlacInput.readUintLoop]
        rw [if_neg hlt]
      rcases hst with ⟨hc0, hfr⟩ | hld
      · subst hfr
        simp [freshReader] at hlt
        omega
      · exact ⟨r, hstep, hld, by omega⟩

theorem readUint_eval (n : Nat) (r r1 : ByteArrayFlacInput) (hn : n ≤ 32) (hne : n ≠ 32)
    (hloop : r.readUintLoop n n = .ok r1) :
    r.readUint n = .ok ((r1.bitBuffer >>> (r1.bitBufferLen - n)) &&& ((1 <<< n) - 1),
      { r1 with bitBufferLen := r1.bitBufferLen - n }) := by
  unfold ByteArrayFlacInput.readUint
  rw [if_neg (by omega), hloop]
  simp [hne]

/-- `readUint n` on a reader in the invariant returns exactly the `n`-bit
slice of the source bit string at the cursor. -/
theorem readUint_spec (D : List Nat) (hD : ∀ b ∈ D, b < 256) (hlen : D.length ≤ 4096)
    (n : Nat) (hn1 : 1 ≤ n) (hn : n ≤ 31)
    (c : Nat) (r : ByteArrayFlacInput) (hst : ReaderSt D c r) (hcn : c + n ≤ 8 * D.length) :
    ∃ r2, r.readUint n = .ok (sliceVal (bitsOfBytes D) c n, r2) ∧
      ReaderLoaded D (c + n) r2 := by
  obtain ⟨r1, hloop, hld, hnl⟩ :=
    readUintLoop_spec D hD hlen n hn1 (by omega) n c r hst hcn (by omega)
  obtain ⟨hdata, hoff, hbuf, hblen, hidx, hbl64, hcl, hwin⟩ := hld
  have heval := readUint_eval n r r1 (by omega) (by omega) hloop
  have hX : sliceVal (bitsOfBytes D) c n < 2 ^ n := sliceVal_lt _ _ _
  have hY : sliceVal (bitsOfBytes D) (c + n) (r1.bitBufferLen - n) <
      2 ^ (r1.bitBufferLen - n) := sliceVal_lt _ _ _
  have hsp := sliceVal_split (bitsOfBytes D) c n (r1.bitBufferLen - n)
    (by rw [bitsOfBytes_length]; omega)
  rw [show n + (r1.bitBufferLen - n) = r1.bitBufferLen from by omega] at hsp
  have hmod : r1.bitBuffer % 2 ^ ((r1.bitBufferLen - n) + n) =
      sliceVal (bitsOfBytes D) c n * 2 ^ (r1.bitBufferLen - n) +
      sliceVal (bitsOfBytes D) (c + n) (r1.bitBufferLen - n) := by
    rw [show (r1.bitBufferLen - n) + n = r1.bitBufferLen from by omega, hwin, hsp]
  have hres := extract_high r1.bitBuffer (r1.bitBufferLen - n) n _ _ hX hY hmod
  have hval : (r1.bitBuffer >>> (r1.bitBufferLen - n)) &&& ((1 <<< n) - 1) =
      sliceVal (bitsOfBytes D) c n := by
    rw [Nat.one_shiftLeft, Nat.and_pow_two_sub_one_eq_mod, hres]
  refine ⟨{ r1 with bitBufferLen := r1.bitBufferLen - n }, by rw [heval, hval], ?_⟩
  refine ⟨hdata, hoff, hbuf, hblen, hidx, by show r1.bitBufferLen - n ≤ 64; omega,
          by show c + n + (r1.bitBufferLen - n) = 8 * r1.byteBufferIndex; omega, ?_⟩
  show r1.bitBuffer % 2 ^ (r1.bitBufferLen - n) =
    sliceVal (bitsOfBytes D) (c + n) (r1.bitBufferLen - n)
  have hdvd : (2:Nat) ^ (r1.bitBufferLen - n) ∣ 2 ^ r1.bitBufferLen :=
    Nat.pow_dvd_pow 2 (by omega)
  rw [← Nat.mod_mod_of_dvd _ hdvd, hwin, hsp, Nat.mul_comm, Nat.mul_add_mod,
      Nat.mod_eq_of_lt hY]

theorem readFullyLoop_spec (D : List Nat) (hD : ∀ b ∈ D, b < 256) (hlen : D.length ≤ 4096)
    (count : Nat) :
    ∀ (c : Nat) (r : ByteArrayFlacInput), ReaderSt D c r → c + 8 * count ≤ 8 * D.length →
    ∃ r2, ByteArrayFlacInput.readFullyLoop count r =
        .ok ((List.range count).map (fun t => sliceVal (bitsOfBytes D) (c + 8 * t) 8), r2) ∧
      ReaderSt D (c + 8 * count) r2 := by
  induction count with
  | zero =>
    intro c r hst hcn
    exact ⟨r, rfl, by simpa using hst⟩
  | succ count ih =>
    intro c r hst hcn
    obtain ⟨r1, hread, hld1⟩ :=
      readUint_spec D hD hlen 8 (by omega) (by omega) c r hst (by omega)
    obtain ⟨r2, hloop, hst2⟩ := ih (c + 8) r1 (Or.inr hld1) (by omega)
    refine ⟨r2, ?_, ?_⟩
    · simp only [ByteArrayFlacInput.readFullyLoop, hread, exc_bind_ok, hloop]
      rw [List.range_succ_eq_map, List.map_cons, List.map_map]
      have hhead : sliceVal (bitsOfBytes D) c 8 = sliceVal (bitsOfBytes D) (c + 8 * 0) 8 := by
        norm_num
      have htail : List.map (fun t => sliceVal (bitsOfBytes D) (c + 8 + 8 * t) 8)
          (List.range count) =
          List.map ((fun t => sliceVal (bitsOfBytes D) (c + 8 * t) 8) ∘ Nat.succ)
          (List.range count) := by
        apply List.map_congr_left
        intro t ht
        simp only [Function.comp_apply, Nat.succ_eq_add_one]
        congr 1
        ring
      rw [hhead, htail]
    · rw [show c + 8 * (count + 1) = c + 8 + 8 * count from by ring]
      exact hst2

theorem readFully_spec (D : List Nat) (hD : ∀ b ∈ D, b < 256) (hlen : D.length ≤ 4096)
    (count c : Nat) (r : ByteArrayFlacInput) (hst : ReaderSt D c r) (hc8 : c % 8 = 0)
    (hcn : c + 8 * count ≤ 8 * D.length) :
    ∃ r2, r.readFully count =
        .ok ((List.range count).map (fun t => sliceVal (bitsOfBytes D) (c + 8 * t) 8), r2) := by
  have halign : r.checkByteAligned = .ok () := by
    unfold ByteArrayFlacInput.checkByteAligned
    rcases hst with ⟨hc0, hfr⟩ | hld
    · subst hfr
      rfl
    · obtain ⟨_, _, _, _, _, _, hcl, _⟩ := hld
      rw [if_neg (by omega)]
  obtain ⟨r2, hloop, _⟩ := readFullyLoop_spec D hD hlen count c r hst hcn
  refine ⟨r2, ?_⟩
  unfold ByteArrayFlacInput.readFully
  rw [halign, exc_bind_ok]
  exact hloop

theorem map_getD_range (l : List Nat) :
    (List.range l.length).map (fun t => l.getD t 0) = l := by
  apply List.ext_getElem
  · simp
  · intro i h1 h2
    rw [List.getElem_map, List.getElem_range, List.getD_eq_getElem l 0 h2]

theorem shiftRight_shiftLeft_or_mod (x n : Nat) :
    ((x >>> n) <<< n) ||| (x % 2 ^ n) = x := by
  rw [shiftLeft_or_eq_add (Nat.mod_lt _ (Nat.two_pow_pos n)), Nat.shiftRight_eq_div_pow,
      Nat.mul_comm]
  exact Nat.div_add_mod x (2 ^ n)

theorem bitsOfBytes_inj : ∀ (a b : List Nat), (∀ x ∈ a, x < 256) → (∀ x ∈ b, x < 256) →
    a.length = b.length → bitsOfBytes a = bitsOfBytes b → a = b := by
  intro a
  induction a with
  | nil =>
    intro b _ _ hl _
    cases b with
    | nil => rfl
    | cons y b => simp at hl
  | cons x a ih =>
    intro b hxa hxb hl hbits
    cases b with
    | nil => simp at hl
    | cons y b =>
      rw [bitsOfBytes_cons, bitsOfBytes_cons] at hbits
      have hxy := List.append_inj hbits (by rw [natToBits_length, natToBits_length])
      have hx : x = y := by
        have h1 : natOfBits (natToBits 8 x) = natOfBits (natToBits 8 y) := by rw [hxy.1]
        rw [natOfBits_natToBits, natOfBits_natToBits,
            Nat.mod_eq_of_lt (show x < 2 ^ 8 from by have := hxa x (by simp); omega),
            Nat.mod_eq_of_lt (show y < 2 ^ 8 from by have := hxb y (by simp); omega)] at h1
        exact h1
      rw [hx, ih b (fun z hz => hxa z (by simp [hz])) (fun z hz => hxb z (by simp [hz]))
          (by simp at hl; omega) hxy.2]

/-! ### Claim C5: parsing the payload back -/

/-- The 32 header bits of the metadata block emitted by `StreamInfo::write`. -/
def headerBits (last : Bool) : List Bool :=
  natToBits 1 (if last then 1 else 0) ++ natToBits 7 0 ++ natToBits 24 34

/-- The 272 payload bits of the metadata block emitted by `StreamInfo::write`. -/
def payloadBits (si : StreamInfo) : List Bool :=
  natToBits 16 si.minBlockSize ++ (natToBits 16 si.maxBlockSize ++
  (natToBits 24 si.minFrameSize ++ (natToBits 24 si.maxFrameSize ++
  (natToBits 20 si.sampleRate ++ (natToBits 3 (si.numChannels - 1) ++
  (natToBits 5 (si.sampleDepth - 1) ++ (natToBits 18 (si.numSamples >>> 18) ++
  (natToBits 18 si.numSamples ++ bitsOfBytes si.md5Hash))))))))

theorem siBits_decomp (last : Bool) (si : StreamInfo) :
    siBits last si = headerBits last ++ payloadBits si := by
  unfold siBits headerBits payloadBits
  simp [List.append_assoc]

theorem sliceVal_peel (n v : Nat) (suf : List Bool) (c m : Nat) :
    sliceVal (natToBits n v ++ suf) (n + c) m = sliceVal suf c m := by
  have h := sliceVal_append_right (natToBits n v) suf c m
  rwa [natToBits_length] at h

/-- Feeding the payload bit string of a range-valid `StreamInfo` (as 34
bytes) to the parsing constructor reproduces every field. -/
theorem streamInfo_parse_bits (si : StreamInfo) (hr : streamInfoSpecRanges si)
    (hmdlen : si.md5Hash.length = 16) (hmd5b : ∀ b ∈ si.md5Hash, b < 256)
    (Dp : List Nat) (hDlen : Dp.length = 34) (hDb : ∀ b ∈ Dp, b < 256)
    (hbits : bitsOfBytes Dp = payloadBits si) :
    StreamInfo.parse Dp = .ok si := by
  obtain ⟨k1, k2, k3, k4, k5, k6, k7, k8, k9, k10, k11, k12, k13, k14⟩ := hr
  have hns18 : si.numSamples >>> 18 < 2 ^ 18 := by
    rw [Nat.shiftRight_eq_div_pow]
    exact (Nat.div_lt_iff_lt_mul (Nat.two_pow_pos 18)).mpr (by omega)
  -- the value of each fixed-width field slice
  have e1 : sliceVal (bitsOfBytes Dp) 0 16 = si.minBlockSize := by
    rw [hbits]
    unfold payloadBits
    rw [sliceVal_head, Nat.mod_eq_of_lt k2]
  have e2 : sliceVal (bitsOfBytes Dp) 16 16 = si.maxBlockSize := by
    rw [hbits]
    show sliceVal (payloadBits si) (16 + 0) 16 = _
    unfold payloadBits
    rw [sliceVal_peel, sliceVal_head, Nat.mod_eq_of_lt k4]
  have e3 : sliceVal (bitsOfBytes Dp) 32 24 = si.minFrameSize := by
    rw [hbits]
    show sliceVal (payloadBits si) (16 + (16 + 0)) 24 = _
    unfold payloadBits
    rw [sliceVal_peel, sliceVal_peel, sliceVal_head, Nat.mod_eq_of_lt k5]
  have e4 : sliceVal (bitsOfBytes Dp) 56 24 = si.maxFrameSize := by
    rw [hbits]
    show sliceVal (payloadBits si) (16 + (16 + (24 + 0))) 24 = _
    unfold payloadBits
    rw [sliceVal_peel, sliceVal_peel, sliceVal_peel, sliceVal_head, Nat.mod_eq_of_lt k6]
  have e5 : sliceVal (bitsOfBytes Dp) 80 20 = si.sampleRate := by
    rw [hbits]
    show sliceVal (payloadBits si) (16 + (16 + (24 + (24 + 0)))) 20 = _
    unfold payloadBits
    rw [sliceVal_peel, sliceVal_peel, sliceVal_peel, sliceVal_peel, sliceVal_head,
        Nat.mod_eq_of_lt (by omega : si.sampleRate < 2 ^ 20)]
  have e6 : sliceVal (bitsOfBytes Dp) 100 3 = si.numChannels - 1 := by
    rw [hbits]
    show sliceVal (payloadBits si) (16 + (16 + (24 + (24 + (20 + 0))))) 3 = _
    unfold payloadBits
    rw [sliceVal_peel, sliceVal_peel, sliceVal_peel, sliceVal_peel, sliceVal_peel,
        sliceVal_head, Nat.mod_eq_of_lt (by omega : si.numChannels - 1 < 2 ^ 3)]
  have e7 : sliceVal (bitsOfBytes Dp) 103 5 = si.sampleDepth - 1 := by
    rw [hbits]
    show sliceVal (payloadBits si) (16 + (16 + (24 + (24 + (20 + (3 + 0)))))) 5 = _
    unfold payloadBits
    rw [sliceVal_peel, sliceVal_peel, sliceVal_peel, sliceVal_peel, sliceVal_peel,
        sliceVal_peel, sliceVal_head, Nat.mod_eq_of_lt (by omega : si.sampleDepth - 1 < 2 ^ 5)]
  have e8 : sliceVal (bitsOfBytes Dp) 108 18 = si.numSamples >>> 18 := by
    rw [hbits]
    show sliceVal (payloadBits si) (16 + (16 + (24 + (24 + (20 + (3 + (5 + 0))))))) 18 = _
    unfold payloadBits
    rw [sliceVal_peel, sliceVal_peel, sliceVal_peel, sliceVal_peel, sliceVal_peel,
        sliceVal_peel, sliceVal_peel, sliceVal_head, Nat.mod_eq_of_lt hns18]
  have e9 : sliceVal (bitsOfBytes Dp) 126 18 = si.numSamples % 2 ^ 18 := by
    rw [hbits]
    show sliceVal (payloadBits si) (16 + (16 + (24 + (24 + (20 + (3 + (5 + (18 + 0)))))))) 18 = _
    unfold payloadBits
    rw [sliceVal_peel, sliceVal_peel, sliceVal_peel, sliceVal_peel, sliceVal_peel,
        sliceVal_peel, sliceVal_peel, sliceVal_peel, sliceVal_head]
  -- the md5 tail
  set pre : List Bool := natToBits 16 si.minBlockSize ++ natToBits 16 si.maxBlockSize ++
      natToBits 24 si.minFrameSize ++ natToBits 24 si.maxFrameSize ++
      natToBits 20 si.sampleRate ++ natToBits 3 (si.numChannels - 1) ++
      natToBits 5 (si.sampleDepth - 1) ++ natToBits 18 (si.numSamples >>> 18) ++
      natToBits 18 si.numSamples with hpre
  have hsplitp : payloadBits si = pre ++ bitsOfBytes si.md5Hash := by
    rw [hpre]
    unfold payloadBits
    simp [List.append_assoc]
  have hprelen : pre.length = 144 := by
    rw [hpre]
    simp [List.length_append, natToBits_length]
  have htail : ∀ d m, sliceVal (bitsOfBytes Dp) (144 + d) m =
      sliceVal (bitsOfBytes si.md5Hash) d m := by
    intro d m
    rw [hbits, hsplitp, show (144:Nat) + d = pre.length + d from by rw [hprelen],
        sliceVal_append_right]
  have hmd5 : (List.range 16).map (fun t => sliceVal (bitsOfBytes Dp) (144 + 8 * t) 8) =
      si.md5Hash := by
    have hmap : ∀ t ∈ List.range 16, sliceVal (bitsOfBytes Dp) (144 + 8 * t) 8 =
        si.md5Hash.getD t 0 := by
      intro t ht
      have ht16 : t < 16 := List.mem_range.mp ht
      rw [htail (8 * t) 8, sliceVal_byte si.md5Hash hmd5b t (by omega)]
    rw [List.map_congr_left hmap, show (16:Nat) = si.md5Hash.length from hmdlen.symm]
    exact map_getD_range si.md5Hash
  -- the reader chain
  have hD4096 : Dp.length ≤ 4096 := by omega
  have hst0 : ReaderSt Dp 0 (freshReader Dp) := Or.inl ⟨rfl, rfl⟩
  obtain ⟨r1, h1, hld1⟩ :=
    readUint_spec Dp hDb hD4096 16 (by omega) (by omega) 0 _ hst0 (by omega)
  norm_num at hld1
  obtain ⟨r2, h2, hld2⟩ :=
    readUint_spec Dp hDb hD4096 16 (by omega) (by omega) 16 r1 (Or.inr hld1) (by omega)
  norm_num at hld2
  obtain ⟨r3, h3, hld3⟩ :=
    readUint_spec Dp hDb hD4096 24 (by omega) (by omega) 32 r2 (Or.inr hld2) (by omega)
  norm_num at hld3
  obtain ⟨r4, h4, hld4⟩ :=
    readUint_spec Dp hDb hD4096 24 (by omega) (by omega) 56 r3 (Or.inr hld3) (by omega)
  norm_num at hld4
  obtain ⟨r5, h5, hld5⟩ :=
    readUint_spec Dp hDb hD4096 20 (by omega) (by omega) 80 r4 (Or.inr hld4) (by omega)
  norm_num at hld5
  obtain ⟨r6, h6, hld6⟩ :=
    readUint_spec Dp hDb hD4096 3 (by omega) (by omega) 100 r5 (Or.inr hld5) (by omega)
  norm_num at hld6
  obtain ⟨r7, h7, hld7⟩ :=
    readUint_spec Dp hDb hD4096 5 (by omega) (by omega) 103 r6 (Or.inr hld6) (by omega)
  norm_num at hld7
  obtain ⟨r8, h8, hld8⟩ :=
    readUint_spec Dp hDb hD4096 18 (by omega) (by omega) 108 r7 (Or.inr hld7) (by omega)
  norm_num at hld8
  obtain ⟨r9, h9, hld9⟩ :=
    readUint_spec Dp hDb hD4096 18 (by omega) (by omega) 126 r8 (Or.inr hld8) (by omega)
  norm_num at hld9
  obtain ⟨r10, h10⟩ :=
    readFully_spec Dp hDb hD4096 16 144 r9 (Or.inr hld9) (by norm_num) (by omega)
  -- guard conditions
  have hg1 : ¬ (si.minBlockSize < 16) := by omega
  have hg2 : ¬ (si.maxBlockSize < si.minBlockSize) := by omega
  have hg3 : ¬ (si.minFrameSize ≠ 0 ∧ si.maxFrameSize ≠ 0 ∧
      si.maxFrameSize < si.minFrameSize) := by
    rintro ⟨ha, hb, hc⟩
    exact absurd (k7 ha hb) (by omega)
  have hg4 : ¬ (si.sampleRate = 0 ∨ si.sampleRate > 655350) := by omega
  have hnc : si.numChannels - 1 + 1 = si.numChannels := by omega
  have hsd : si.sampleDepth - 1 + 1 = si.sampleDepth := by omega
  have hns : ((si.numSamples >>> 18) <<< 18) ||| (si.numSamples % 2 ^ 18) = si.numSamples :=
    shiftRight_shiftLeft_or_mod si.numSamples 18
  unfold StreamInfo.parse
  rw [if_neg (by omega)]
  simp only [h1, h2, h3, h4, h5, h6, h7, h8, h9, h10, e1, e2, e3, e4, e5, e6, e7, e8, e9,
             hmd5, hg1, hg2, hg3, hg4, hnc, hsd, hns, exc_bind_ok, if_false,
             ite_false, if_neg, not_false_iff]

/-- C5: for every `StreamInfo` satisfying the data-model ranges of
specification section 3 (with a well-formed 16-byte md5 hash), `write(last)`
on a fresh `BitOutputStream` succeeds and, after the flush, has emitted
exactly 38 bytes: the 4-byte metadata block header (isLast flag, type 0,
length 34) followed by the 34-byte payload, and the parsing constructor run
on those last 34 bytes succeeds and reproduces every field, including
`numSamples` and the md5 hash. -/
theorem C5_streaminfo_write_parse_roundtrip (last : Bool) (si : StreamInfo)
    (h : streamInfoSpecRanges si) (hmdlen : si.md5Hash.length = 16)
    (hmd5b : ∀ b ∈ si.md5Hash, b < 256) :
    ∃ w, StreamInfo.write last si freshWriter = .ok w ∧
      w.flush.outBytes.length = 38 ∧
      w.flush.outBytes.take 4 = [if last then 128 else 0, 0, 0, 34] ∧
      StreamInfo.parse (w.flush.outBytes.drop 4) = .ok si := by
  have hcr : streamInfoCheckedRanges si := by
    obtain ⟨k1, k2, k3, k4, k5, k6, k7, k8, k9, k10, k11, k12, k13, k14⟩ := h
    exact ⟨k2, k4, k5, k6, k8, by omega, k10, k11, k12, k13, k14⟩
  obtain ⟨w, hw, hwb, hbits⟩ := streamInfo_write_bits last si hcr hmd5b
  obtain ⟨hf1, hf2, hf3⟩ := flush_spec w hwb
  have hsblen : (siBits last si).length = 304 := by
    unfold siBits
    simp [List.length_append, natToBits_length, bitsOfBytes_length, hmdlen]
  have hlen_eq : 8 * w.outBytes.length + w.bitBufferLen = 304 := by
    have h2 : (writerBits w).length = 304 := by rw [hbits, hsblen]
    unfold writerBits at h2
    rwa [List.length_append, bitsOfBytes_length, natToBits_length] at h2
  have hfbits : writerBits w.flush = siBits last si := by rw [hf2, hbits]
  have hflen_eq : 8 * w.flush.outBytes.length + w.flush.bitBufferLen = 304 := by
    have h2 : (writerBits w.flush).length = 304 := by rw [hfbits, hsblen]
    unfold writerBits at h2
    rwa [List.length_append, bitsOfBytes_length, natToBits_length] at h2
  have hfl0 : w.flush.bitBufferLen = 0 := by omega
  have hout38 : w.flush.outBytes.length = 38 := by omega
  have hbytes : bitsOfBytes w.flush.outBytes = siBits last si := by
    have h2 := hfbits
    unfold writerBits at h2
    rw [hfl0, show natToBits 0 w.flush.bitBuffer = [] from rfl, List.append_nil] at h2
    exact h2
  have hsplit : bitsOfBytes (w.flush.outBytes.take 4) ++ bitsOfBytes (w.flush.outBytes.drop 4)
      = headerBits last ++ payloadBits si := by
    rw [← bitsOfBytes_append, List.take_append_drop, hbytes, siBits_decomp]
  have htk4 : (w.flush.outBytes.take 4).length = 4 := by
    rw [List.length_take]
    omega
  have hhb : (headerBits last).length = 32 := by
    unfold headerBits
    simp [List.length_append, natToBits_length]
  have hsp2 := List.append_inj hsplit (by rw [bitsOfBytes_length, htk4, hhb])
  have hhead : w.flush.outBytes.take 4 = [if last then 128 else 0, 0, 0, 34] := by
    apply bitsOfBytes_inj _ _ (fun b hb => hf3 b (List.take_subset _ _ hb)) ?_ ?_ ?_
    · intro b hb
      cases last <;> simp at hb <;> omega
    · rw [htk4]
      cases last <;> rfl
    · rw [hsp2.1]
      cases last <;> decide
  have hparse := streamInfo_parse_bits si h hmdlen hmd5b (w.flush.outBytes.drop 4)
    (by rw [List.length_drop]; omega) (fun b hb => hf3 b (List.drop_subset _ _ hb)) hsp2.2
  exact ⟨w, hw, hout38, hhead, hparse⟩

/-- C5 witness: the theorem applied to the specification scenario 1 stream
info (4096/4096 blocks, 44.1 kHz, 2 channels, 16 bits, zero md5) as a last
metadata block. -/
theorem C5_witness :
    streamInfoSpecRanges
      { minBlockSize := 4096, maxBlockSize := 4096, minFrameSize := 0, maxFrameSize := 0,
        sampleRate := 44100, numChannels := 2, sampleDepth := 16, numSamples := 0,
        md5Hash := List.replicate 16 0 } ∧
    ∃ w, StreamInfo.write true
      { minBlockSize := 4096, maxBlockSize := 4096, minFrameSize := 0, maxFrameSize := 0,
        sampleRate := 44100, numChannels := 2, sampleDepth := 16, numSamples := 0,
        md5Hash := List.replicate 16 0 } freshWriter = .ok w ∧
      w.flush.outBytes.length = 38 ∧
      w.flush.outBytes.take 4 = [128, 0, 0, 34] ∧
      StreamInfo.parse (w.flush.outBytes.drop 4) = .ok
        { minBlockSize := 4096, maxBlockSize := 4096, minFrameSize := 0, maxFrameSize := 0,
          sampleRate := 44100, numChannels := 2, sampleDepth := 16, numSamples := 0,
          md5Hash := List.replicate 16 0 } :=
  ⟨by decide,
   C5_streaminfo_write_parse_roundtrip true _ (by decide) (by decide) (by decide)⟩
